import Mathlib

/-!
Verification development for the ruslox core: a shallow embedding of the
scanner, compiler/emitter and virtual machine, with theorems checking the
specification's claims against the code.

Numbers: the Rust code uses `f64`. The claims exercised here only involve
exact small-integer arithmetic, so the embedding carries `ℚ` (exact
rational arithmetic, which agrees with IEEE-754 doubles on all values the
claims touch); places where IEEE behaviour could diverge (division by
zero, rounding) are never relied upon by a theorem.
-/

namespace Ruslox

/-- Half-open byte range `[lo, hi)` into a source file (`Range<usize>` in the code). -/
structure ByteRange where
  lo : Nat
  hi : Nat
deriving DecidableEq, Repr

/-- Token type, from `src/compiler/src/scanner.rs` (`enum Token`). Keyword
constructors carry a `kw` prefix because several keyword names are reserved
words in Lean. -/
inductive Token where
  | leftParenthesis | rightParenthesis | leftBrace | rightBrace
  | comma | dot | minus | plus | semicolon | slash | star
  | bang | bangEqual | equal | equalEqual
  | greater | greaterEqual | less | lessEqual
  | identifier (s : String)
  | stringLit (s : String)
  | number (n : ℚ)
  | kwAnd | kwClass | kwElse | kwFalse | kwFor | kwFun | kwIf | kwNil
  | kwOr | kwPrint | kwReturn | kwSuper | kwThis | kwTrue | kwVar | kwWhile
  | errorTok
deriving DecidableEq, Repr

/-! ## Scanner (`src/compiler/src/scanner.rs`, the `pegscanner` PEG grammar)

The PEG grammar is an ordered choice; each rule below mirrors one grammar
rule, operating on a `List Char` view of the input (the claims only involve
ASCII sources, where char positions and byte positions coincide). -/

/-- Scanner-level diagnostic codes recorded by the `token` / `number` /
`string` rules of the grammar. -/
inductive ScanErr where
  | e0002UnexpectedCharacter
  | e0003UninterpretableNumber
  | e0004UnterminatedString
deriving DecidableEq, Repr

/-- Consume the exact literal `lit` from the front of `input`, as a PEG
string literal does, returning the rest on success. -/
def matchLit : List Char → List Char → Option (List Char)
  | [], rest => some rest
  | _ :: _, [] => none
  | c :: cs, d :: ds => if c = d then matchLit cs ds else none

/-- Ordered choice over literal/token alternatives, as in the `single`,
`one_or_two` and `keywords` rules: the first literal that matches wins. -/
def firstLit : List (List Char × Token) → List Char → Option (Token × List Char)
  | [], _ => none
  | (lit, t) :: alts, input =>
    match matchLit lit input with
    | some rest => some (t, rest)
    | none => firstLit alts input

/-- The `single()` rule: one-character tokens, in grammar order. -/
def singleAlts : List (List Char × Token) :=
  [(['('], .leftParenthesis), ([')'], .rightParenthesis),
   (['{'], .leftBrace), (['}'], .rightBrace),
   ([','], .comma), (['.'], .dot), (['-'], .minus), (['+'], .plus),
   ([';'], .semicolon), (['/'], .slash), (['*'], .star)]

/-- The `one_or_two()` rule: two-character operators before their
one-character prefixes, in grammar order. -/
def oneOrTwoAlts : List (List Char × Token) :=
  [(['!', '='], .bangEqual), (['=', '='], .equalEqual),
   (['>', '='], .greaterEqual), (['<', '='], .lessEqual),
   (['!'], .bang), (['='], .equal), (['>'], .greater), (['<'], .less)]

/-- The `keywords()` rule, in grammar order. Note: exactly as in the PEG
grammar, a keyword alternative matches a bare prefix of the input with no
word-boundary check after it. -/
def keywordAlts : List (List Char × Token) :=
  [("and".toList, .kwAnd), ("class".toList, .kwClass), ("else".toList, .kwElse),
   ("false".toList, .kwFalse), ("for".toList, .kwFor), ("fun".toList, .kwFun),
   ("if".toList, .kwIf), ("nil".toList, .kwNil), ("or".toList, .kwOr),
   ("print".toList, .kwPrint), ("return".toList, .kwReturn),
   ("super".toList, .kwSuper), ("this".toList, .kwThis), ("true".toList, .kwTrue),
   ("var".toList, .kwVar), ("while".toList, .kwWhile)]

/-- The `alpha()` helper rule: `['a'..='z' | 'A'..='Z' | '_']`. -/
def isAlphaChar (c : Char) : Bool :=
  (('a' ≤ c ∧ c ≤ 'z') ∨ ('A' ≤ c ∧ c ≤ 'Z') ∨ c = '_' : Bool)

/-- The `numeric()` helper rule: `['0'..='9']`. -/
def isNumericChar (c : Char) : Bool :=
  ('0' ≤ c ∧ c ≤ '9' : Bool)

/-- The `alphanumeric()` helper rule. -/
def isAlphanumericChar (c : Char) : Bool :=
  isAlphaChar c || isNumericChar c

/-- The `identifier()` rule: `alpha() alphanumeric()*`, greedy. -/
def takeIdentifier : List Char → Option (Token × List Char)
  | [] => none
  | c :: cs =>
    if isAlphaChar c then
      let body := cs.takeWhile isAlphanumericChar
      some (.identifier (String.mk (c :: body)), cs.dropWhile isAlphanumericChar)
    else none

/-- Value of a digit string (most significant first). -/
def digitsToNat (ds : List Char) : Nat :=
  ds.foldl (fun acc c => acc * 10 + (c.toNat - '0'.toNat)) 0

/-- The `number()` rule: `numeric()+ ("." numeric()+)?`. The lexeme is then
parsed; our exact-rational carrier can represent every such lexeme, so the
E0003 (`uninterpretable number literal`) arm of the rule is unreachable in
the model (in the code it fires only when `str::parse::<f64>` fails). -/
def takeNumber : List Char → Option (Token × List Char)
  | [] => none
  | c :: cs =>
    if isNumericChar c then
      let whole := c :: cs.takeWhile isNumericChar
      let rest := cs.dropWhile isNumericChar
      match rest with
      | '.' :: d :: ds =>
        if isNumericChar d then
          let fracDigits := d :: ds.takeWhile isNumericChar
          let rest' := ds.dropWhile isNumericChar
          some (.number ((digitsToNat whole : ℚ) +
                  (digitsToNat fracDigits : ℚ) / ((10 : ℚ) ^ fracDigits.length)), rest')
        else
          some (.number (digitsToNat whole : ℚ), rest)
      | _ => some (.number (digitsToNat whole : ℚ), rest)
    else none

/-- The `string()` rule: `"\"" [^'"']* "\""`, or the unterminated-string
error arm (which consumes to end of input and records E0004). Returns the
token, the rest, and an optional error. -/
def takeStringLit : List Char → Option (Token × List Char × Option ScanErr)
  | [] => none
  | c :: cs =>
    if c = '\"' then
      let body := cs.takeWhile (fun d => d ≠ '\"')
      match cs.dropWhile (fun d => d ≠ '\"') with
      | _ :: rest => some (.stringLit (String.mk body), rest, none)
      | [] => some (.errorTok, [], some .e0004UnterminatedString)
    else none

/-- The `recognized_token()` rule: ordered choice
`single / one_or_two / keywords / literals`, with
`literals = identifier / number / string`. -/
def recognizedToken (input : List Char) : Option (Token × List Char × Option ScanErr) :=
  match firstLit singleAlts input with
  | some (t, rest) => some (t, rest, none)
  | none =>
    match firstLit oneOrTwoAlts input with
    | some (t, rest) => some (t, rest, none)
    | none =>
      match firstLit keywordAlts input with
      | some (t, rest) => some (t, rest, none)
      | none =>
        match takeIdentifier input with
        | some (t, rest) => some (t, rest, none)
        | none =>
          match takeNumber input with
          | some (t, rest) => some (t, rest, none)
          | none => takeStringLit input

/-- The `blank()` rule: `[' ' | '\t' | '\r' | '\n']`. -/
def isBlankChar (c : Char) : Bool :=
  c = ' ' || c = '\t' || c = '\r' || c = '\n'

/-- One `comment()`: `"//" [^'\n']*`. -/
def takeComment (input : List Char) : Option (List Char) :=
  match matchLit ['/', '/'] input with
  | some rest => some (rest.dropWhile (fun c => c ≠ '\n'))
  | none => none

/-- `comment()**"\n"`: comments separated by exactly a newline (with
backtracking, the separator newline is only consumed when another comment
follows). -/
def takeComments (fuel : Nat) (input : List Char) : List Char :=
  match fuel with
  | 0 => input
  | fuel + 1 =>
    match takeComment input with
    | none => input
    | some rest =>
      match rest with
      | '\n' :: rest' =>
        if (takeComment rest').isSome then takeComments fuel rest' else rest
      | _ => rest

/-- The `_` rule: `blank()* comment()**"\n" blank()*`. -/
def skipTrivia (input : List Char) : List Char :=
  let s1 := input.dropWhile isBlankChar
  let s2 := takeComments s1.length s1
  s2.dropWhile isBlankChar

/-- The `token()` rule applied repeatedly (`scan() = _ token()**_ _`): the
recognized-token arm records a token, the catch-all arm consumes one
character, records an `Error` token and reports E0002. `pos` tracks the
input position for spans; `fuel` only bounds the recursion (the driver is
always called with enough fuel to consume the input). -/
def scanLoop (fuel pos : Nat) (input : List Char) :
    List (Token × ByteRange) × List ScanErr :=
  match fuel with
  | 0 => ([], [])
  | fuel + 1 =>
    let skipped := skipTrivia input
    let pos := pos + (input.length - skipped.length)
    match skipped with
    | [] => ([], [])
    | c :: rest =>
      match recognizedToken skipped with
      | some (t, rest', err?) =>
        let consumed := skipped.length - rest'.length
        let (ts, es) := scanLoop fuel (pos + consumed) rest'
        ((t, ⟨pos, pos + consumed⟩) :: ts,
         match err? with
         | some e => e :: es
         | none => es)
      | none =>
        let _ := c
        let (ts, es) := scanLoop fuel (pos + 1) rest
        ((.errorTok, ⟨pos, pos + 1⟩) :: ts, .e0002UnexpectedCharacter :: es)

/-- The scanned context: recorded tokens with their spans (mirrors
`ScannedContext { tokens, positions }`). -/
def scanTokens (source : String) : List (Token × ByteRange) × List ScanErr :=
  scanLoop (source.toList.length + 1) 0 source.toList

/-- `scan` (`pub fn scan` in scanner.rs): succeed with the scanned context
exactly when no scan error was recorded. -/
def scan (source : String) : Except (List ScanErr) (List (Token × ByteRange)) :=
  match scanTokens source with
  | (ts, []) => .ok ts
  | (_, es) => .error es

/-! ## Shared data model (`src/shared/src/constant.rs`, `chunk.rs`) -/

/-- `enum Constant`: `Number(f64) | String(String)`. -/
inductive Constant where
  | number (n : ℚ)
  | string (s : String)
deriving DecidableEq, Repr

/-- `enum Instruction` from chunk.rs. The `u8` / `u16` operands are carried
as `Nat`, with the `as u8` / `as u16` casts made explicit (`% 256`,
`% 65536`) at every emission site. -/
inductive Instruction where
  | constant (i : Nat) | defineGlobal (i : Nat) | getGlobal (i : Nat) | setGlobal (i : Nat)
  | getLocal (i : Nat) | setLocal (i : Nat)
  | jumpFalse (d : Nat) | jump (d : Nat) | loop (d : Nat)
  | nil | true | false
  | add | subtract | multiply | divide | negate
  | not | equal | greater | less
  | ret | print | pop
deriving DecidableEq, Repr

/-- `struct Chunk { file_id, code, positions, constants }`. -/
structure Chunk where
  fileId : Nat
  code : List Instruction
  positions : List ByteRange
  constants : List Constant
deriving DecidableEq, Repr

/-- `Chunk::new`. -/
def Chunk.new (fileId : Nat) : Chunk :=
  { fileId := fileId, code := [], positions := [], constants := [] }

/-- `Chunk::write`: push the instruction and its span. -/
def Chunk.write (c : Chunk) (i : Instruction) (p : ByteRange) : Chunk :=
  { c with code := c.code ++ [i], positions := c.positions ++ [p] }

/-- `Chunk::add_constant`: refuse once the pool holds `u8::MAX + 1 = 256`
entries, otherwise push and return the new index (which is `< 256`, so the
`as u8` cast in the code is lossless). -/
def Chunk.addConstant (c : Chunk) (v : Constant) : Option (Chunk × Nat) :=
  if c.constants.length ≥ 256 then none
  else some ({ c with constants := c.constants ++ [v] }, c.constants.length)

/-- Replace the instruction at `site` with the given (already computed)
instruction. Modelled from the spec: the compiler calls
`self.chunk.backpatch(site, instruction)` but the method body is not among
the source files; chunk.rs shows the backpatching primitive `patch`, which
overwrites the displacement of the jump stored at `site` (spec §4.3:
"patch(site): sets code[site]'s embedded offset"). The call sites pass the
fully computed jump instruction, so `backpatch` replaces `code[site]`. -/
def Chunk.backpatch (c : Chunk) (site : Nat) (i : Instruction) : Chunk :=
  { c with code := c.code.set site i }

/-! ## Parse tree (`src/compiler/src/parser.rs`) -/

/-- `enum Expression`. Operator positions hold a `Token`, as in the code
(the parser only ever stores operator tokens there; the emitter treats any
other token as unreachable). -/
inductive Expression where
  | stringE (s : String)
  | number (n : ℚ)
  | identifier (s : String)
  | true | false | nil
  | unary (op : Token) (e : Expression)
  | assign (target source : Expression)
  | arithmetic (l : Expression) (op : Token) (r : Expression)
  | logic (l : Expression) (op : Token) (r : Expression)
deriving DecidableEq, Repr

/-- `enum Statement`. `block` carries parallel statement/position vectors,
as in the code. -/
inductive Statement where
  | varDeclaration (name : String) (init : Option Expression)
  | print (e : Expression)
  | ifS (cond : Expression) (then_ : Statement) (otherwise : Option Statement)
  | whileS (cond : Expression) (body : Statement)
  | forS (init : Option Expression) (cond : Option Expression)
         (inc : Option Expression) (body : Statement)
  | forWithInit (init : Option Statement) (cond : Option Expression)
                (inc : Option Expression) (body : Statement)
  | block (statements : List Statement) (positions : List ByteRange)
  | expressional (e : Expression)
  | error

/-! ## Compiler / emitter (`src/compiler/src/lib.rs`) -/

/-- `struct Local { depth, name }`. -/
structure Local where
  depth : Nat
  name : String
deriving DecidableEq, Repr

/-- Compiler state: the chunk under construction, the compile-time locals
stack (`Stack<Local>`, capacity 256, bottom of the stack first so that the
list index is the runtime slot), and the scope depth. -/
structure CompState where
  chunk : Chunk
  locals : List Local
  localDepth : Nat
deriving DecidableEq, Repr

/-- Compile-time failures. The Rust compiler reports `E0001` and `E0008`
as diagnostics and propagates the locals stack-overflow diagnostic
(`E1001`) from `Stack::push`; `unreachablePanic` stands for the
`unreachable!` panics (emitting a parser `Error` statement or a malformed
operator token), which likewise never yield a chunk. -/
inductive CompileErr where
  | e0001TooManyConstants
  | e0008InvalidAssignTarget
  | e1001LocalsOverflow
  | unreachablePanic
deriving DecidableEq, Repr

/-- `Compiler::new` over a fresh chunk. -/
def CompState.new (fileId : Nat) : CompState :=
  { chunk := Chunk.new fileId, locals := [], localDepth := 0 }

/-- `self.chunk.write(..)` lifted to the compiler state. -/
def CompState.write (st : CompState) (i : Instruction) (p : ByteRange) : CompState :=
  { st with chunk := st.chunk.write i p }

/-- `self.chunk.backpatch(..)` lifted to the compiler state. -/
def CompState.backpatch (st : CompState) (site : Nat) (i : Instruction) : CompState :=
  { st with chunk := st.chunk.backpatch site i }

/-- `Compiler::emit_constant`: add to the pool or fail with E0001. -/
def CompState.emitConstant (st : CompState) (c : Constant) :
    Except CompileErr (CompState × Nat) :=
  match st.chunk.addConstant c with
  | some (ch, index) => .ok ({ st with chunk := ch }, index)
  | none => .error .e0001TooManyConstants

/-- `self.locals.push(..)`: the shared `Stack` has capacity 256 and fails
with E1001 when full. -/
def CompState.pushLocal (st : CompState) (l : Local) : Except CompileErr CompState :=
  if st.locals.length ≥ 256 then .error .e1001LocalsOverflow
  else .ok { st with locals := st.locals ++ [l] }

/-- The local-resolution loop `for slot in (0..self.locals.len()).rev()`:
index of the topmost local with the given name, if any. -/
def resolveLocal (locals : List Local) (name : String) : Option Nat :=
  match locals.reverse.findIdx? (fun l => l.name = name) with
  | some j => some (locals.length - 1 - j)
  | none => none

/-- `Compiler::emit_expression`. Every arm mirrors the corresponding match
arm in lib.rs, including the emission order of constants, jumps and
backpatches; the placeholder displacement is `u16::MAX = 65535` and every
computed displacement carries the `as u16` cast as `% 65536`. Note the
`Token::Slash` arm: the code writes `Instruction::Multiply` there. -/
def emitExpression (st : CompState) (e : Expression) (p : ByteRange) :
    Except CompileErr CompState :=
  match e with
  | .stringE s =>
    match st.emitConstant (.string s) with
    | .error er => .error er
    | .ok (st1, index) => .ok (st1.write (.constant index) p)
  | .number n =>
    match st.emitConstant (.number n) with
    | .error er => .error er
    | .ok (st1, index) => .ok (st1.write (.constant index) p)
  | .identifier id =>
    match st.emitConstant (.string id) with
    | .error er => .error er
    | .ok (st1, index) =>
      match resolveLocal st1.locals id with
      | some slot => .ok (st1.write (.getLocal (slot % 256)) p)
      | none => .ok (st1.write (.getGlobal index) p)
  | .true => .ok (st.write .true p)
  | .false => .ok (st.write .false p)
  | .nil => .ok (st.write .nil p)
  | .unary op e1 =>
    match emitExpression st e1 p with
    | .error er => .error er
    | .ok st1 =>
      match op with
      | .minus => .ok (st1.write .negate p)
      | .bang => .ok (st1.write .not p)
      | _ => .error .unreachablePanic
  | .assign target source =>
    match target with
    | .identifier id =>
      match st.emitConstant (.string id) with
      | .error er => .error er
      | .ok (st1, index) =>
        match emitExpression st1 source p with
        | .error er => .error er
        | .ok st2 =>
          match resolveLocal st2.locals id with
          | some slot => .ok (st2.write (.setLocal (slot % 256)) p)
          | none => .ok (st2.write (.setGlobal index) p)
    | _ => .error .e0008InvalidAssignTarget
  | .arithmetic l op r =>
    match emitExpression st l p with
    | .error er => .error er
    | .ok st1 =>
      match emitExpression st1 r p with
      | .error er => .error er
      | .ok st2 =>
        match op with
        | .plus => .ok (st2.write .add p)
        | .minus => .ok (st2.write .subtract p)
        | .star => .ok (st2.write .multiply p)
        | .slash => .ok (st2.write .multiply p)
        | .greater => .ok (st2.write .greater p)
        | .less => .ok (st2.write .less p)
        | .equalEqual => .ok (st2.write .equal p)
        | .greaterEqual => .ok ((st2.write .less p).write .not p)
        | .lessEqual => .ok ((st2.write .greater p).write .not p)
        | .bangEqual => .ok ((st2.write .equal p).write .not p)
        | _ => .error .unreachablePanic
  | .logic l op r =>
    match op with
    | .kwAnd =>
      match emitExpression st l p with
      | .error er => .error er
      | .ok st1 =>
        let patch := st1.chunk.code.length
        let st2 := (st1.write (.jumpFalse 65535) p).write .pop p
        match emitExpression st2 r p with
        | .error er => .error er
        | .ok st3 =>
          .ok (st3.backpatch patch
                (.jumpFalse ((st3.chunk.code.length - patch) % 65536)))
    | .kwOr =>
      match emitExpression st l p with
      | .error er => .error er
      | .ok st1 =>
        let falsePatch := st1.chunk.code.length
        let st2 := st1.write (.jumpFalse 65535) p
        let patch := st2.chunk.code.length
        let st3 := st2.write (.jump 65535) p
        let st4 := st3.backpatch falsePatch
                     (.jumpFalse ((st3.chunk.code.length - falsePatch) % 65536))
        let st5 := st4.write .pop p
        match emitExpression st5 r p with
        | .error er => .error er
        | .ok st6 =>
          .ok (st6.backpatch patch
                (.jump ((st6.chunk.code.length - patch) % 65536)))
    | _ => .error .unreachablePanic

/-- The block-exit loop in `Compiler::emit_statement` (`Statement::Block`
arm): while the topmost local was declared at the current depth, write a
`Pop` and discard it. -/
def dischargeLocals (st : CompState) (p : ByteRange) : CompState :=
  match h : st.locals.getLast? with
  | some l =>
    if l.depth = st.localDepth then
      dischargeLocals
        { st with chunk := st.chunk.write .pop p, locals := st.locals.dropLast } p
    else st
  | none => st
termination_by st.locals.length
decreasing_by
  have hne : st.locals ≠ [] := by
    intro he
    rw [he] at h
    simp at h
  have hp : 0 < st.locals.length := List.length_pos.mpr hne
  simp only [List.length_dropLast]
  omega

/-- The `match initializer` at the top of the `VarDeclaration` arm: emit
the initializer expression, or `Nil` when absent. -/
def emitInitializer (st : CompState) (init : Option Expression) (p : ByteRange) :
    Except CompileErr CompState :=
  match init with
  | some e => emitExpression st e p
  | none => .ok (st.write .nil p)

/-- The `if let Some(e) = e { self.emit_expression(e, position)?; }` pattern
used for the optional condition/increment (and `For` initializer)
expressions: emit when present, do nothing when absent. -/
def emitOptExpression (st : CompState) (o : Option Expression) (p : ByteRange) :
    Except CompileErr CompState :=
  match o with
  | some e => emitExpression st e p
  | none => .ok st

mutual

/-- `Compiler::emit_statement`, arm by arm; `?`-propagation is written as
`Except.bind`. Statement spans: nested statements of `if`/`while`/`for`
are emitted with the outer statement's span, block members with their own
recorded spans, exactly as in lib.rs. -/
def emitStatement (st : CompState) (s : Statement) (p : ByteRange) :
    Except CompileErr CompState :=
  match s with
  | .varDeclaration name init =>
    (emitInitializer st init p).bind fun st1 =>
    (st1.emitConstant (.string name)).bind fun pr =>
    match pr.1.localDepth with
    | 0 => .ok (pr.1.write (.defineGlobal pr.2) p)
    | _ + 1 => pr.1.pushLocal ⟨pr.1.localDepth, name⟩
  | .print e =>
    (emitExpression st e p).bind fun st1 => .ok (st1.write .print p)
  | .ifS cond then_ otherwise =>
    (emitExpression st cond p).bind fun st1 =>
    let thenPatch := st1.chunk.code.length
    (emitStatement ((st1.write (.jumpFalse 65535) p).write .pop p) then_ p).bind
      fun st3 =>
    let otherwisePatch := st3.chunk.code.length
    let st4 := st3.write (.jump 65535) p
    let st5 := st4.backpatch thenPatch
                 (.jumpFalse ((st4.chunk.code.length - thenPatch) % 65536))
    let st6 := st5.write .pop p
    (emitOptStatement st6 otherwise p).bind fun st7 =>
    .ok (st7.backpatch otherwisePatch
          (.jump ((st7.chunk.code.length - otherwisePatch) % 65536)))
  | .whileS cond body =>
    let loopPatch := st.chunk.code.length
    (emitExpression st cond p).bind fun st1 =>
    let conditionPatch := st1.chunk.code.length
    (emitStatement ((st1.write (.jumpFalse 65535) p).write .pop p) body p).bind
      fun st3 =>
    let st4 := st3.write (.loop ((st3.chunk.code.length - loopPatch) % 65536)) p
    let st5 := st4.backpatch conditionPatch
                 (.jumpFalse ((st4.chunk.code.length - conditionPatch) % 65536))
    .ok (st5.write .pop p)
  | .forS init cond inc body =>
    let stA := { st with localDepth := st.localDepth + 1 }
    (emitOptExpression stA init p).bind fun st1 =>
    let conditionPatch := st1.chunk.code.length
    (emitOptExpression st1 cond p).bind fun st2 =>
    let breakPatch := st2.chunk.code.length
    let st3 := (st2.write (.jumpFalse 65535) p).write .pop p
    let bodyPatch := st3.chunk.code.length
    let st4 := st3.write (.jump 65535) p
    let incPatch := st4.chunk.code.length
    (emitOptExpression st4 inc p).bind fun st5 =>
    let st6 := st5.write .pop p
    let st7 := st6.write (.loop ((st6.chunk.code.length - conditionPatch) % 65536)) p
    let st8 := st7.backpatch bodyPatch
                 (.jump ((st7.chunk.code.length - bodyPatch) % 65536))
    (emitStatement st8 body p).bind fun st9 =>
    let st10 := st9.write (.loop ((st9.chunk.code.length - incPatch) % 65536)) p
    let st11 := st10.backpatch breakPatch
                  (.jumpFalse ((st10.chunk.code.length - breakPatch) % 65536))
    let st12 := st11.write .pop p
    .ok { st12 with localDepth := st12.localDepth - 1 }
  | .forWithInit init cond inc body =>
    let stA := { st with localDepth := st.localDepth + 1 }
    (emitOptStatement stA init p).bind fun st1 =>
    let conditionPatch := st1.chunk.code.length
    (emitOptExpression st1 cond p).bind fun st2 =>
    let breakPatch := st2.chunk.code.length
    let st3 := (st2.write (.jumpFalse 65535) p).write .pop p
    let bodyPatch := st3.chunk.code.length
    let st4 := st3.write (.jump 65535) p
    let incPatch := st4.chunk.code.length
    (emitOptExpression st4 inc p).bind fun st5 =>
    let st6 := st5.write .pop p
    let st7 := st6.write (.loop ((st6.chunk.code.length - conditionPatch) % 65536)) p
    let st8 := st7.backpatch bodyPatch
                 (.jump ((st7.chunk.code.length - bodyPatch) % 65536))
    (emitStatement st8 body p).bind fun st9 =>
    let st10 := st9.write (.loop ((st9.chunk.code.length - incPatch) % 65536)) p
    let st11 := st10.backpatch breakPatch
                  (.jumpFalse ((st10.chunk.code.length - breakPatch) % 65536))
    let st12 := st11.write .pop p
    .ok { st12 with localDepth := st12.localDepth - 1 }
  | .block statements positions =>
    let stA := { st with localDepth := st.localDepth + 1 }
    (emitStatements stA statements positions).bind fun st1 =>
    let st2 := dischargeLocals st1 p
    .ok { st2 with localDepth := st2.localDepth - 1 }
  | .expressional e =>
    (emitExpression st e p).bind fun st1 => .ok (st1.write .pop p)
  | .error => .error .unreachablePanic

/-- The `if let Some(s) = s { self.emit_statement(s, position)?; }` pattern
for optional nested statements (`else` branch, `ForWithInit` initializer). -/
def emitOptStatement (st : CompState) (o : Option Statement) (p : ByteRange) :
    Except CompileErr CompState :=
  match o with
  | some s => emitStatement st s p
  | none => .ok st

/-- The statement loops of `Compiler::compile` and of the `Block` arm: walk
statements zipped with their positions (`iter().zip(..)` truncates at the
shorter list). -/
def emitStatements (st : CompState) :
    List Statement → List ByteRange → Except CompileErr CompState
  | [], _ => .ok st
  | _ :: _, [] => .ok st
  | s :: ss, p :: ps =>
    (emitStatement st s p).bind fun st1 => emitStatements st1 ss ps

end

/-- `pub fn compile` after scanning and parsing: run the emitter over the
parsed statements, then append the final `Return` with span `0..0`. -/
def compileChunk (fileId : Nat) (statements : List Statement)
    (positions : List ByteRange) : Except CompileErr Chunk :=
  match emitStatements (CompState.new fileId) statements positions with
  | .error er => .error er
  | .ok st => .ok (st.chunk.write .ret ⟨0, 0⟩)

/-! ## Objects and heap (`src/runtime/src/object.rs`, `vm/heap.rs`)

`ManagedReference` identity is pointer equality of its data pointer; the
embedding models the Rust allocator by numbering allocations: `data` is the
allocation id, and the heap's `objects` map holds each allocation's string
payload (the contents of the `Box`). -/

/-- `ObjectType` (only `String` is registered). -/
inductive ObjectType where
  | stringObj
deriving DecidableEq, Repr

/-- `ManagedReference`: `data` models the data pointer (allocation id),
`typ` the tag reached through the meta pointer. Equality of references in
the code (`PartialEq for ManagedReference`) is `ptr::eq(self.data, ..)`,
i.e. equality of `data` here. -/
structure ManagedReference where
  data : Nat
  typ : ObjectType
deriving DecidableEq, Repr

/-- `struct Heap { references, interned_strings }` plus the allocator model
(`objects` = payload of each live allocation, `nextId` = next fresh
address). -/
structure Heap where
  references : List Nat
  internedStrings : List (String × Nat)
  objects : List (Nat × String)
  nextId : Nat
deriving DecidableEq, Repr

/-- `Heap::new`. -/
def Heap.new : Heap :=
  { references := [], internedStrings := [], objects := [], nextId := 0 }

/-- `ManagedReference::from_unmanaged`: box a fresh `StringObject` and
register the reference with the garbage collector (the heap). This does
NOT consult the intern table. -/
def Heap.fromUnmanaged (h : Heap) (s : String) : ManagedReference × Heap :=
  (⟨h.nextId, .stringObj⟩,
   { h with
     objects := h.objects ++ [(h.nextId, s)],
     references := h.references ++ [h.nextId],
     nextId := h.nextId + 1 })

/-- `Heap::manage_string`: return the interned reference when the content
is already in the table, otherwise allocate through `from_unmanaged` and
intern the new reference. -/
def Heap.manageString (h : Heap) (s : String) : ManagedReference × Heap :=
  match h.internedStrings.lookup s with
  | some id => (⟨id, .stringObj⟩, h)
  | none =>
    let (r, h1) := h.fromUnmanaged s
    (r, { h1 with internedStrings := h1.internedStrings ++ [(s, r.data)] })

/-- Dereference a managed reference's data pointer (`Downcast` to
`&StringObject`): defined when the allocation is live. -/
def Heap.deref (h : Heap) (r : ManagedReference) : Option String :=
  h.objects.lookup r.data

/-! ## Values (`src/runtime/src/value.rs`) -/

/-- `enum Value`. -/
inductive Value where
  | nil
  | number (n : ℚ)
  | boolean (b : Bool)
  | object (r : ManagedReference)
deriving DecidableEq, Repr

/-- `f64::EPSILON` = 2⁻⁵². -/
def f64Epsilon : ℚ := 1 / 2 ^ 52

/-- `PartialEq for Value`: numbers by `|a - b| < f64::EPSILON`, objects by
pointer identity first, then string-content equality (reading through the
heap, which the Rust code does by dereferencing the data pointer; a dangling
reference would be undefined behaviour there and is read as `""` here —
no reachable state dangles). -/
def valueEq (h : Heap) : Value → Value → Bool
  | .nil, .nil => Bool.true
  | .number a, .number b => decide (|a - b| < f64Epsilon)
  | .boolean a, .boolean b => a == b
  | .object l, .object r =>
    l.data == r.data ||
      ((h.deref l).getD "" == (h.deref r).getD "")
  | _, _ => Bool.false

/-- `impl Display for Value`, as used by the `Print` instruction
(`println!("{}", value)`). Note the string arm: the code writes the content
wrapped in double quotes (`write!(f, "\"{}\"", string_object)`). Numbers:
Rust prints the shortest decimal of the `f64`; this model prints the
integer value when the rational is integral (which agrees with Rust for
every value a theorem below prints) and a fraction otherwise. -/
def displayValue (h : Heap) : Value → String
  | .nil => "nil"
  | .number n =>
    if n.den = 1 then toString n.num
    else toString n.num ++ "/" ++ toString n.den
  | .boolean b => if b then "true" else "false"
  | .object r => "\"" ++ ((h.deref r).getD "") ++ "\""

/-- Modelled from the spec: `Value::as_bool` is called by the VM's
`JumpFalse` arm but its definition is not among the source files. Spec
§4.4 Truthiness: "`false` and `nil` are falsy; all other values (including
`0`, `\"\"`, and any object) are truthy." -/
def Value.as_bool : Value → Bool
  | .boolean b => b
  | .nil => Bool.false
  | _ => Bool.true

/-! ## Virtual machine (`src/runtime/src/vm.rs`, `vm/stack.rs`) -/

/-- Runtime diagnostic codes (`E1001`–`E1013`), plus `panicked` for the
places where the Rust code would panic rather than return a diagnostic
(out-of-bounds indexing into `code`/`constants`, a dangling downcast). -/
inductive RuntimeErr where
  | e1001StackOverflow
  | e1002StackUnderflow
  | e1003OperandsMustBeNumbers
  | e1004OperandMustBeNumber
  | e1005ConcatOperands
  | e1006InvalidGlobalName
  | e1007EmptyStackGlobal
  | e1008UndefinedGlobal
  | e1009GetLocalEmpty
  | e1010SetLocalEmpty
  | e1011JumpOutOfCode
  | e1012JumpConditionEmpty
  | e1013LoopOutOfCode
  | panicked
deriving DecidableEq, Repr

/-- `HashMap::insert`: overwrite the binding if the key is present,
otherwise add it. -/
def insertGlobal (g : List (String × Value)) (k : String) (v : Value) :
    List (String × Value) :=
  if (g.lookup k).isSome then
    g.map (fun kv => if kv.1 = k then (k, v) else kv)
  else g ++ [(k, v)]

/-- `VirtualMachine` state during `run`: the loaded chunk's code and
constants, the instruction offset, the operand stack (`Stack<Value>`,
capacity 256, bottom of the stack first so list index = slot index), the
globals map, the heap, and the lines written to standard output by
`Print`. -/
structure VMState where
  code : List Instruction
  constants : List Constant
  offset : Nat
  stack : List Value
  globals : List (String × Value)
  heap : Heap
  output : List String
deriving DecidableEq, Repr

/-- Result of executing one instruction: proceed, return successfully
(`Instruction::Return`), or fail with a diagnostic. Errors carry the VM
state at the moment of the error, because the Rust VM mutates itself in
place and an early `return Err(..)` keeps all mutations made so far. -/
inductive StepRes where
  | next (s : VMState)
  | halt (s : VMState)
  | err (e : RuntimeErr) (s : VMState)
deriving DecidableEq, Repr

/-- `Stack::push` followed by the loop's `offset += 1`: fail with E1001 at
capacity 256. -/
def VMState.push (s : VMState) (v : Value) : StepRes :=
  if s.stack.length ≥ 256 then .err .e1001StackOverflow s
  else .next { s with stack := s.stack ++ [v], offset := s.offset + 1 }

/-- One iteration of the fetch loop in `VirtualMachine::run`. Jump
arithmetic: a taken `JumpFalse`/`Jump` does `offset += d - 1` and `Loop`
does `offset -= d + 1`, each followed by the loop's `offset += 1`; the net
effects `offset + d` and `offset - d` are modelled directly. (For `Loop`
with `offset = d` the two `usize` operations wrap and cancel in release
builds, still landing on `offset - d = 0`.) -/
def step (s : VMState) : StepRes :=
  match s.code[s.offset]? with
  | none => .err .panicked s
  | some instr =>
    match instr with
    | .constant i =>
      match s.constants[i]? with
      | none => .err .panicked s
      | some (.number n) => s.push (.number n)
      | some (.string str) =>
        let (r, h1) := s.heap.manageString str
        VMState.push { s with heap := h1 } (.object r)
    | .defineGlobal i =>
      match s.constants[i]? with
      | none => .err .panicked s
      | some (.number _) => .err .e1006InvalidGlobalName s
      | some (.string name) =>
        match s.stack.getLast? with
        | none => .err .e1007EmptyStackGlobal s
        | some v =>
          .next { s with
                  globals := insertGlobal s.globals name v,
                  stack := s.stack.dropLast,
                  offset := s.offset + 1 }
    | .getGlobal i =>
      match s.constants[i]? with
      | none => .err .panicked s
      | some (.number _) => .err .e1006InvalidGlobalName s
      | some (.string name) =>
        match s.globals.lookup name with
        | none => .err .e1008UndefinedGlobal s
        | some v => s.push v
    | .setGlobal i =>
      match s.constants[i]? with
      | none => .err .panicked s
      | some (.number _) => .err .e1006InvalidGlobalName s
      | some (.string name) =>
        if (s.globals.lookup name).isNone then .err .e1008UndefinedGlobal s
        else
          match s.stack.getLast? with
          | none => .err .e1007EmptyStackGlobal s
          | some v =>
            .next { s with
                    globals := insertGlobal s.globals name v,
                    offset := s.offset + 1 }
    | .getLocal i =>
      match s.stack[i]? with
      | none => .err .e1009GetLocalEmpty s
      | some v => s.push v
    | .setLocal i =>
      if i < s.stack.length then
        .next { s with
                stack := s.stack.set i (s.stack.getLast?.getD .nil),
                offset := s.offset + 1 }
      else .err .e1010SetLocalEmpty s
    | .jumpFalse d =>
      match s.stack.getLast? with
      | none => .err .e1012JumpConditionEmpty s
      | some v =>
        if v.as_bool then .next { s with offset := s.offset + 1 }
        else if s.offset + d ≥ s.code.length then .err .e1011JumpOutOfCode s
        else .next { s with offset := s.offset + d }
    | .jump d =>
      if s.offset + d ≥ s.code.length then .err .e1011JumpOutOfCode s
      else .next { s with offset := s.offset + d }
    | .loop d =>
      if s.offset < d then .err .e1013LoopOutOfCode s
      else .next { s with offset := s.offset - d }
    | .nil => s.push .nil
    | .true => s.push (.boolean Bool.true)
    | .false => s.push (.boolean Bool.false)
    | .add =>
      match s.stack.getLast? with
      | none => .err .e1002StackUnderflow s
      | some right =>
        let s1 := { s with stack := s.stack.dropLast }
        match s1.stack.getLast? with
        | none => .err .e1002StackUnderflow s1
        | some left =>
          let s2 := { s1 with stack := s1.stack.dropLast }
          match left, right with
          | .number a, .number b => s2.push (.number (a + b))
          | .object l, .object r =>
            match s2.heap.deref l, s2.heap.deref r with
            | some cl, some cr =>
              let (ref, h1) := s2.heap.fromUnmanaged (cl ++ cr)
              VMState.push { s2 with heap := h1 } (.object ref)
            | _, _ => .err .panicked s2
          | _, _ => .err .e1005ConcatOperands s2
    | .subtract =>
      match s.stack.getLast? with
      | none => .err .e1002StackUnderflow s
      | some right =>
        let s1 := { s with stack := s.stack.dropLast }
        match s1.stack.getLast? with
        | none => .err .e1002StackUnderflow s1
        | some left =>
          let s2 := { s1 with stack := s1.stack.dropLast }
          match left, right with
          | .number a, .number b => s2.push (.number (a - b))
          | _, _ => .err .e1003OperandsMustBeNumbers s2
    | .multiply =>
      match s.stack.getLast? with
      | none => .err .e1002StackUnderflow s
      | some right =>
        let s1 := { s with stack := s.stack.dropLast }
        match s1.stack.getLast? with
        | none => .err .e1002StackUnderflow s1
        | some left =>
          let s2 := { s1 with stack := s1.stack.dropLast }
          match left, right with
          | .number a, .number b => s2.push (.number (a * b))
          | _, _ => .err .e1003OperandsMustBeNumbers s2
    | .divide =>
      match s.stack.getLast? with
      | none => .err .e1002StackUnderflow s
      | some right =>
        let s1 := { s with stack := s.stack.dropLast }
        match s1.stack.getLast? with
        | none => .err .e1002StackUnderflow s1
        | some left =>
          let s2 := { s1 with stack := s1.stack.dropLast }
          match left, right with
          | .number a, .number b => s2.push (.number (a / b))
          | _, _ => .err .e1003OperandsMustBeNumbers s2
    | .negate =>
      match s.stack.getLast? with
      | none => .err .e1002StackUnderflow s
      | some v =>
        let s1 := { s with stack := s.stack.dropLast }
        match v with
        | .number n => s1.push (.number (-n))
        | _ => .err .e1004OperandMustBeNumber s1
    | .not =>
      match s.stack.getLast? with
      | none => .err .e1002StackUnderflow s
      | some v =>
        let s1 := { s with stack := s.stack.dropLast }
        match v with
        | .boolean b => s1.push (.boolean (!b))
        | .nil => s1.push (.boolean Bool.true)
        | _ => s1.push (.boolean Bool.false)
    | .equal =>
      match s.stack.getLast? with
      | none => .err .e1002StackUnderflow s
      | some right =>
        let s1 := { s with stack := s.stack.dropLast }
        match s1.stack.getLast? with
        | none => .err .e1002StackUnderflow s1
        | some left =>
          let s2 := { s1 with stack := s1.stack.dropLast }
          s2.push (.boolean (valueEq s2.heap left right))
    | .greater =>
      match s.stack.getLast? with
      | none => .err .e1002StackUnderflow s
      | some right =>
        let s1 := { s with stack := s.stack.dropLast }
        match s1.stack.getLast? with
        | none => .err .e1002StackUnderflow s1
        | some left =>
          let s2 := { s1 with stack := s1.stack.dropLast }
          match left, right with
          | .number a, .number b => s2.push (.boolean (decide (a > b)))
          | _, _ => .err .e1003OperandsMustBeNumbers s2
    | .less =>
      match s.stack.getLast? with
      | none => .err .e1002StackUnderflow s
      | some right =>
        let s1 := { s with stack := s.stack.dropLast }
        match s1.stack.getLast? with
        | none => .err .e1002StackUnderflow s1
        | some left =>
          let s2 := { s1 with stack := s1.stack.dropLast }
          match left, right with
          | .number a, .number b => s2.push (.boolean (decide (a < b)))
          | _, _ => .err .e1003OperandsMustBeNumbers s2
    | .ret => .halt s
    | .print =>
      match s.stack.getLast? with
      | none => .err .e1002StackUnderflow s
      | some v =>
        .next { s with
                stack := s.stack.dropLast,
                output := s.output ++ [displayValue s.heap v],
                offset := s.offset + 1 }
    | .pop =>
      match s.stack.getLast? with
      | none => .err .e1002StackUnderflow s
      | some _ =>
        .next { s with stack := s.stack.dropLast, offset := s.offset + 1 }

/-- Outcome of running the fetch loop for at most `fuel` instructions. -/
inductive Outcome where
  | finished (s : VMState)
  | failed (e : RuntimeErr) (s : VMState)
  | outOfFuel (s : VMState)
deriving DecidableEq, Repr

/-- Iterate `step`. The Rust loop has no fuel; `fuel` only bounds this
model's recursion and every terminating execution is reached with a large
enough fuel. -/
def run : Nat → VMState → Outcome
  | 0, s => .outOfFuel s
  | fuel + 1, s =>
    match step s with
    | .next s1 => run fuel s1
    | .halt s1 => .finished s1
    | .err e s1 => .failed e s1

/-- `VirtualMachine::new` followed by `interpret(chunk)`: fresh stack,
globals and heap, offset 0. -/
def initState (ch : Chunk) : VMState :=
  { code := ch.code, constants := ch.constants, offset := 0,
    stack := [], globals := [], heap := Heap.new, output := [] }

/-! ## Projections used to state concrete execution results -/

/-- Output lines of a successfully finished execution. -/
def Outcome.finalOutput : Outcome → Option (List String)
  | .finished s => some s.output
  | _ => none

/-- Operand stack of a successfully finished execution (after the final
`Return`). -/
def Outcome.finalStack : Outcome → Option (List Value)
  | .finished s => some s.stack
  | _ => none

/-- Globals map of a successfully finished execution. -/
def Outcome.finalGlobals : Outcome → Option (List (String × Value))
  | .finished s => some s.globals
  | _ => none

/-- Heap of a successfully finished execution. -/
def Outcome.finalHeap : Outcome → Option Heap
  | .finished s => some s.heap
  | _ => none

/-- Diagnostic code of a failed execution. -/
def Outcome.errCode : Outcome → Option RuntimeErr
  | .failed e _ => some e
  | _ => none

/-! ## C1: the `/` operator -/

/-- The program `print 6 / 3;` (`Token::Slash` arithmetic). -/
def c1Statements : List Statement :=
  [.print (.arithmetic (.number 6) Token.slash (.number 3))]

/-- Its compiled chunk. -/
def c1Chunk : Chunk :=
  { fileId := 0,
    code := [.constant 0, .constant 1, .multiply, .print, .ret],
    positions := [⟨0, 16⟩, ⟨0, 16⟩, ⟨0, 16⟩, ⟨0, 16⟩, ⟨0, 0⟩],
    constants := [.number 6, .number 3] }

/-! ## C2: stack balance at top level -/

/-- The program `for (var i = 0; false;) print 1;` — a `for` statement
whose initializer is a `var` declaration. -/
def c2Statements : List Statement :=
  [.forWithInit (some (.varDeclaration "i" (some (.number 0)))) (some .false)
    none (.print (.number 1))]

/-- Its compiled chunk. -/
def c2Chunk : Chunk :=
  { fileId := 0,
    code := [.constant 0, .false, .jumpFalse 8, .pop, .jump 3, .pop, .loop 5,
             .constant 2, .print, .loop 4, .pop, .ret],
    positions := [⟨0, 36⟩, ⟨0, 36⟩, ⟨0, 36⟩, ⟨0, 36⟩, ⟨0, 36⟩, ⟨0, 36⟩,
                  ⟨0, 36⟩, ⟨0, 36⟩, ⟨0, 36⟩, ⟨0, 36⟩, ⟨0, 36⟩, ⟨0, 0⟩],
    constants := [.number 0, .string "i", .number 1] }

/-! ## C6: printing strings -/

/-- The program `var a = "hi"; var b = "!"; print a + b;`. -/
def c6Statements : List Statement :=
  [.varDeclaration "a" (some (.stringE "hi")),
   .varDeclaration "b" (some (.stringE "!")),
   .print (.arithmetic (.identifier "a") Token.plus (.identifier "b"))]

/-- Its compiled chunk. -/
def c6Chunk : Chunk :=
  { fileId := 0,
    code := [.constant 0, .defineGlobal 1, .constant 2, .defineGlobal 3,
             .getGlobal 4, .getGlobal 5, .add, .print, .ret],
    positions := [⟨0, 13⟩, ⟨0, 13⟩, ⟨14, 27⟩, ⟨14, 27⟩,
                  ⟨28, 40⟩, ⟨28, 40⟩, ⟨28, 40⟩, ⟨28, 40⟩, ⟨0, 0⟩],
    constants := [.string "hi", .string "a", .string "!", .string "b",
                  .string "a", .string "b"] }

/-! ## C7: `for` with an absent condition -/

/-- The program `for (;;) print 1;`. -/
def c7Statements : List Statement :=
  [.forS none none none (.print (.number 1))]

/-- Its compiled chunk: the `For` arm writes the `JumpFalse`/`Pop` pair
even though no condition expression was emitted before it. -/
def c7Chunk : Chunk :=
  { fileId := 0,
    code := [.jumpFalse 8, .pop, .jump 3, .pop, .loop 4,
             .constant 0, .print, .loop 4, .pop, .ret],
    positions := [⟨0, 17⟩, ⟨0, 17⟩, ⟨0, 17⟩, ⟨0, 17⟩, ⟨0, 17⟩,
                  ⟨0, 17⟩, ⟨0, 17⟩, ⟨0, 17⟩, ⟨0, 17⟩, ⟨0, 0⟩],
    constants := [.number 1] }

/-- A concrete state for the witness: one `SetGlobal 0` instruction,
constant pool `["g"]`, global `g` defined, stack `[1]`. -/
def c10State : VMState :=
  { code := [.setGlobal 0], constants := [.string "g"], offset := 0,
    stack := [.number 1], globals := [("g", .nil)], heap := Heap.new,
    output := [] }

/-! ## C5: string interning -/

/-- The program `var x = "ab"; var y = "a" + "b";`. -/
def c5Statements : List Statement :=
  [.varDeclaration "x" (some (.stringE "ab")),
   .varDeclaration "y" (some (.arithmetic (.stringE "a") Token.plus (.stringE "b")))]

/-- Its compiled chunk. -/
def c5Chunk : Chunk :=
  { fileId := 0,
    code := [.constant 0, .defineGlobal 1, .constant 2, .constant 3, .add,
             .defineGlobal 4, .ret],
    positions := [⟨0, 14⟩, ⟨0, 14⟩, ⟨15, 33⟩, ⟨15, 33⟩, ⟨15, 33⟩,
                  ⟨15, 33⟩, ⟨0, 0⟩],
    constants := [.string "ab", .string "x", .string "a", .string "b",
                  .string "y"] }

/-! ## Emission invariant

`instrOkM i len ins` says the instruction stored at index `i` of a code
vector of length `len` carries a well-formed displacement: the stored
value is the `as u16` image of a true displacement `D` that is non-zero
and lands inside the vector (`i + D ≤ len` for forward jumps — the final
`Return` appended after all statements later turns this into a strict
bound — and `D ≤ i` for loops). Non-jump instructions are unconstrained. -/

def instrOkM (i len : Nat) : Instruction → Prop
  | .jump d => ∃ D, d = D % 65536 ∧ 0 < D ∧ i + D ≤ len
  | .jumpFalse d => ∃ D, d = D % 65536 ∧ 0 < D ∧ i + D ≤ len
  | .loop d => ∃ D, d = D % 65536 ∧ 0 < D ∧ D ≤ i
  | _ => True

/-- Relation between a compiler state and a later one during emission:
code only grows (`lenLe`), the old region is untouched (`agrees`), every
instruction written in the new region is displacement-well-formed
(`newOk`) except at the still-pending placeholder sites `pend` (each of
which lies in the new region, `pendBound`), and the constant-pool cap is
preserved (`constOk`). -/
structure PInv (pend : List Nat) (a b : CompState) : Prop where
  lenLe : a.chunk.code.length ≤ b.chunk.code.length
  agrees : ∀ i, i < a.chunk.code.length → b.chunk.code[i]? = a.chunk.code[i]?
  newOk : ∀ i ins, a.chunk.code.length ≤ i → i ∉ pend →
            b.chunk.code[i]? = some ins → instrOkM i b.chunk.code.length ins
  pendBound : ∀ j ∈ pend, a.chunk.code.length ≤ j ∧ j < b.chunk.code.length
  constOk : a.chunk.constants.length ≤ 256 → b.chunk.constants.length ≤ 256

/-- The backpatched state produced by emitting `false and true` from a
fresh compiler. -/
def c8Result : CompState :=
  { chunk := { fileId := 0,
               code := [.false, .jumpFalse 3, .pop, .true],
               positions := [⟨0, 0⟩, ⟨0, 0⟩, ⟨0, 0⟩, ⟨0, 0⟩],
               constants := [] },
    locals := [], localDepth := 0 }

/-! ## C3 / C9: properties of every compiled chunk -/

/-- The claim's jump well-formedness property: every `Jump`/`JumpFalse`
carries a non-zero displacement whose target `i + d` lies in
`[0, len(code))`, and every `Loop` a non-zero displacement with
`d ≤ i` (so the target `i - d` lies in `[0, len(code))`). -/
def jumpsOk (code : List Instruction) : Prop :=
  ∀ i ins, code[i]? = some ins →
    (∀ d, ins = .jump d → 0 < d ∧ i + d < code.length) ∧
    (∀ d, ins = .jumpFalse d → 0 < d ∧ i + d < code.length) ∧
    (∀ d, ins = .loop d → 0 < d ∧ d ≤ i)

/-- A chunk for the C3 witness: `while (true) print 1;`. -/
def c3WitnessChunk : Chunk :=
  { fileId := 0,
    code := [.true, .jumpFalse 5, .pop, .constant 0, .print, .loop 5, .pop, .ret],
    positions := [⟨0, 22⟩, ⟨0, 22⟩, ⟨0, 22⟩, ⟨0, 22⟩, ⟨0, 22⟩, ⟨0, 22⟩,
                  ⟨0, 22⟩, ⟨0, 0⟩],
    constants := [.number 1] }

/-- One numeric expression statement; each occurrence adds one constant to
the pool (`add_constant` never deduplicates). -/
def c9Stmt : Statement := .expressional (.number 1)

/-! ## C3 counterexample: 16-bit displacement wrap-around -/

/-- The statement `true;`: two instructions, no constants, no locals. -/
def trueStmt : Statement := .expressional .true

/-- State after emitting `n` copies of `true;`. -/
def appendTrues : CompState → Nat → ByteRange → CompState
  | st, 0, _ => st
  | st, n + 1, p => appendTrues ((st.write .true p).write .pop p) n p

/-- Zero-width span used by the counterexample program. -/
def pZ : ByteRange := ⟨0, 0⟩

/-- An `else` branch of 32767 `true;` statements: 65534 instructions. -/
def c3Else : Statement :=
  .block (List.replicate 32767 trueStmt) (List.replicate 32767 pZ)

/-- `if (true) true; else { true; true; ... }` with 32767 copies in the
else block. -/
def c3Prog : List Statement := [.ifS .true (.expressional .true) (some c3Else)]

/-- State after the condition of the counterexample `if`: one `True`. -/
def c3St1 : CompState := (CompState.new 0).write .true pZ

/-- State after the then-branch `true;`: 5 instructions, with the
`JumpFalse` placeholder at index 1. -/
def c3St3 : CompState :=
  (((c3St1.write (.jumpFalse 65535) pZ).write .pop pZ).write .true pZ).write .pop pZ

/-- State just before the else branch: `Jump` placeholder written at index
5, `JumpFalse` backpatched, `Pop` written — 7 instructions. -/
def c3StSix : CompState :=
  ((c3St3.write (.jump 65535) pZ).backpatch c3St1.chunk.code.length
    (.jumpFalse (((c3St3.write (.jump 65535) pZ).chunk.code.length -
      c3St1.chunk.code.length) % 65536))).write .pop pZ

/-- A left-nested chain of `n` additions over `n + 1` `true` literals
(`((true + true) + true) + ...`): compiles to `2n + 1` instructions and
needs no constant-pool entries. -/
def addChain : Nat → Expression
  | 0 => .true
  | n + 1 => .arithmetic (addChain n) Token.plus .true

/-- State after emitting `addChain n`: a `True`, then `n` rounds of
`True`/`Add`. -/
def appendAdds : CompState → Nat → ByteRange → CompState
  | st, 0, p => st.write .true p
  | st, n + 1, p => ((appendAdds st n p).write .true p).write .add p

/-- State after the left operand `false` of the C8 counterexample: one
`False` instruction. -/
def c8cSt1 : CompState := (CompState.new 0).write .false pZ

/-- State just before the right operand: `False`, the `JumpFalse`
placeholder at index 1, and the `Pop` of the and's left value. -/
def c8cSt2 : CompState := (c8cSt1.write (.jumpFalse 65535) pZ).write .pop pZ

/-- The C8 counterexample program: the single expression statement
`false and (true + true + ... + true);` whose right operand compiles to
65535 instructions, so the region the `JumpFalse` must skip (right operand
plus its `Pop`) is 65537 instructions long and the `as u16` displacement
wraps to 1. -/
def c8cProg : List Statement :=
  [.expressional (.logic .false Token.kwAnd (addChain 32767))]

/-- C1: the claim says the `Slash` arm emits `Divide`, so `print 6 / 3;`
prints the quotient 2. The code's `Token::Slash` arm emits
`Instruction::Multiply` instead: the compiled chunk for `print 6 / 3;`
contains `Multiply` and no `Divide` at all, and running it prints `18`,
the product. -/
theorem c1_slash_arm_emits_multiply_not_divide :
    compileChunk 0 c1Statements [⟨0, 16⟩] = .ok c1Chunk ∧
    c1Chunk.code[2]? = some .multiply ∧
    Instruction.divide ∉ c1Chunk.code ∧
    (run 20 (initState c1Chunk)).finalOutput = some ["18"] := by
  refine ⟨by rfl, by rfl, by decide, by with_unfolding_all rfl⟩

/-- C2: the claim (and spec) say every runtime-successful program ends with
an empty operand stack, the `for`-with-`var`-initializer statement being
stack-neutral. The code's `ForWithInit` arm decrements `local_depth` on
exit without popping the initializer's local (contrast the `Block` arm):
`for (var i = 0; false;) print 1;` compiles, runs to the final `Return`
without error, and terminates with the value `0` still on the stack. -/
theorem c2_for_var_initializer_left_on_stack :
    compileChunk 0 c2Statements [⟨0, 36⟩] = .ok c2Chunk ∧
    (run 20 (initState c2Chunk)).finalStack = some [.number 0] := by
  refine ⟨by rfl, by with_unfolding_all rfl⟩

/-! ## C4: keyword / identifier longest match -/

/-- C4: the claim says a maximal identifier lexeme becomes one token, with
the keyword table consulted only for the whole lexeme, so `orchid` is a
single `Identifier`. The PEG grammar tries `keywords()` before
`literals()` with no word-boundary check, so `or` matches first: scanning
`orchid` succeeds and yields the keyword `or` followed by the identifier
`chid` — two tokens, not one. -/
theorem c4_orchid_scans_as_or_then_chid :
    scan "orchid" = .ok [(.kwOr, ⟨0, 2⟩), (.identifier "chid", ⟨2, 6⟩)] := by
  rfl

/-- C6: the claim (and the spec's scenario 2) say `Print` writes a string's
raw bytes with no surrounding quotes, so this program outputs exactly
`hi!`. The `Display` impl for `Value` writes string objects as
`"\"{}\""`, and `Print` prints through `Display`: the program outputs the
quoted rendering `"hi!"`, not `hi!`. -/
theorem c6_print_wraps_strings_in_quotes :
    compileChunk 0 c6Statements [⟨0, 13⟩, ⟨14, 27⟩, ⟨28, 40⟩] = .ok c6Chunk ∧
    (run 30 (initState c6Chunk)).finalOutput = some ["\"hi!\""] ∧
    (run 30 (initState c6Chunk)).finalOutput ≠ some ["hi!"] := by
  have h2 : (run 30 (initState c6Chunk)).finalOutput = some ["\"hi!\""] := by
    with_unfolding_all rfl
  refine ⟨by rfl, h2, ?_⟩
  rw [h2]
  decide

/-- C7: the claim (and spec layout) say an absent `for` condition behaves
as `true` — never a false test, a runtime error, or a read of an unrelated
stack value. The `For` arm emits `JumpFalse` unconditionally with nothing
pushed for the condition, so `for (;;) print 1;` compiles and then fails
immediately at runtime with E1012 ("jump condition required but stack is
empty") instead of looping. -/
theorem c7_absent_for_condition_raises_e1012 :
    compileChunk 0 c7Statements [⟨0, 17⟩] = .ok c7Chunk ∧
    (run 20 (initState c7Chunk)).errCode = some .e1012JumpConditionEmpty := by
  refine ⟨by rfl, by with_unfolding_all rfl⟩

/-! ## C10: `SetGlobal` -/

/-- C10: executing `SetGlobal(i)` (with the name constant in range, as the
compiler guarantees) either fails atomically or overwrites without
popping. When the name is not a defined global, the VM returns E1008 and
the state — globals map and operand stack included — is exactly the state
before the instruction (the error carries `s` itself). When the name is
defined and the stack is non-empty with top `v`, the binding is
overwritten with `v`, the stack is untouched, and execution proceeds. -/
theorem c10_set_global_atomic (s : VMState) (i : Nat) (name : String)
    (hc : s.code[s.offset]? = some (.setGlobal i))
    (hn : s.constants[i]? = some (.string name)) :
    ((s.globals.lookup name).isNone → step s = .err .e1008UndefinedGlobal s) ∧
    (∀ v rest, (s.globals.lookup name).isSome → s.stack = rest ++ [v] →
      step s = .next { s with globals := insertGlobal s.globals name v,
                              offset := s.offset + 1 }) := by
  constructor
  · intro h
    simp only [step, hc, hn, h, if_pos]
  · intro v rest hsome hst
    have hnone : (s.globals.lookup name).isNone = Bool.false := by
      cases hlk : s.globals.lookup name with
      | none => rw [hlk] at hsome; simp at hsome
      | some w => simp
    simp only [step, hc, hn, hnone, Bool.false_eq_true, if_false, hst,
      List.getLast?_concat]

/-- Witness for C10 at `c10State`. -/
theorem c10_set_global_atomic_witness :
    c10State.code[c10State.offset]? = some (.setGlobal 0) ∧
    c10State.constants[0]? = some (.string "g") ∧
    (((c10State.globals.lookup "g").isNone →
        step c10State = .err .e1008UndefinedGlobal c10State) ∧
     (∀ v rest, (c10State.globals.lookup "g").isSome →
        c10State.stack = rest ++ [v] →
        step c10State = .next { c10State with
                                globals := insertGlobal c10State.globals "g" v,
                                offset := c10State.offset + 1 })) :=
  ⟨by rfl, by rfl, c10_set_global_atomic c10State 0 "g" (by rfl) (by rfl)⟩

/-- C5 counterexample: the claim says any two string values with equal
content share one heap reference, concatenation results included. Running
`var x = "ab"; var y = "a" + "b";` ends with `x` bound to allocation 0 and
`y` bound to allocation 3: both dereference to the content `"ab"`, yet the
data pointers differ — the `Add` string branch allocates through
`from_unmanaged` without consulting the intern table (allocation 0, the
interned literal `"ab"`, is left untouched). -/
theorem c5_equal_content_distinct_references :
    compileChunk 0 c5Statements [⟨0, 14⟩, ⟨15, 33⟩] = .ok c5Chunk ∧
    (run 20 (initState c5Chunk)).finalGlobals =
      some [("x", .object ⟨0, .stringObj⟩), ("y", .object ⟨3, .stringObj⟩)] ∧
    (run 20 (initState c5Chunk)).finalHeap =
      some { references := [0, 1, 2, 3],
             internedStrings := [("ab", 0), ("a", 1), ("b", 2)],
             objects := [(0, "ab"), (1, "a"), (2, "b"), (3, "ab")],
             nextId := 4 } ∧
    Heap.deref { references := [0, 1, 2, 3],
                 internedStrings := [("ab", 0), ("a", 1), ("b", 2)],
                 objects := [(0, "ab"), (1, "a"), (2, "b"), (3, "ab")],
                 nextId := 4 } ⟨0, .stringObj⟩ = some "ab" ∧
    Heap.deref { references := [0, 1, 2, 3],
                 internedStrings := [("ab", 0), ("a", 1), ("b", 2)],
                 objects := [(0, "ab"), (1, "a"), (2, "b"), (3, "ab")],
                 nextId := 4 } ⟨3, .stringObj⟩ = some "ab" ∧
    (⟨0, .stringObj⟩ : ManagedReference) ≠ ⟨3, .stringObj⟩ := by
  refine ⟨by rfl, by rfl, by rfl, by rfl, by rfl, by decide⟩

/-- `List.lookup` distributes over append. -/
theorem lookup_append {α β : Type} [BEq α] (l1 l2 : List (α × β)) (k : α) :
    (l1 ++ l2).lookup k = ((l1.lookup k).orElse (fun _ => l2.lookup k)) := by
  induction l1 with
  | nil => simp [List.lookup]
  | cons kv l1 ih =>
    by_cases h : k == kv.1
    · simp [List.lookup, h]
    · simp only [List.cons_append, List.lookup, h]
      exact ih

/-- C5 amended: literal loads are interned — `manage_string` is stable, so
repeated `Constant` loads of the same content return the identical
reference with the heap unchanged — while the string produced by the `Add`
concatenation branch goes through `from_unmanaged`, which always returns a
fresh allocation (distinct from every live allocation id), bypassing the
intern table. -/
theorem c5_amended_intern_stable_concat_fresh (h : Heap) (s : String) :
    Heap.manageString (h.manageString s).2 s = h.manageString s ∧
    (h.fromUnmanaged s).1.data = h.nextId ∧
    ((∀ q ∈ h.objects, q.1 < h.nextId) →
      ∀ q ∈ h.objects, (h.fromUnmanaged s).1.data ≠ q.1) := by
  refine ⟨?_, by rfl, ?_⟩
  · cases hlk : h.internedStrings.lookup s with
    | some id => simp [Heap.manageString, hlk]
    | none =>
      simp only [Heap.manageString, hlk, Heap.fromUnmanaged]
      rw [lookup_append]
      simp [hlk, List.lookup]
  · intro hinv q hq
    have := hinv q hq
    simp only [Heap.fromUnmanaged]
    omega

/-- Witness for the amended C5 at a concrete heap with one live interned
string. -/
theorem c5_amended_witness :
    (Heap.manageString
        ((Heap.manageString ⟨[0], [("k", 0)], [(0, "k")], 1⟩ "w").2) "w" =
      Heap.manageString ⟨[0], [("k", 0)], [(0, "k")], 1⟩ "w") ∧
    ((Heap.fromUnmanaged ⟨[0], [("k", 0)], [(0, "k")], 1⟩ "w").1.data = 1 ∧
     ((∀ q ∈ Heap.objects ⟨[0], [("k", 0)], [(0, "k")], 1⟩, q.1 < 1) →
       ∀ q ∈ Heap.objects ⟨[0], [("k", 0)], [(0, "k")], 1⟩,
         (Heap.fromUnmanaged ⟨[0], [("k", 0)], [(0, "k")], 1⟩ "w").1.data ≠ q.1)) :=
  c5_amended_intern_stable_concat_fresh ⟨[0], [("k", 0)], [(0, "k")], 1⟩ "w"

/-- `instrOkM` is monotone in the code length. -/
theorem instrOkM.mono {i len len' : Nat} {ins : Instruction}
    (h : instrOkM i len ins) (hle : len ≤ len') : instrOkM i len' ins := by
  cases ins with
  | jump d =>
    obtain ⟨D, h1, h2, h3⟩ := h
    exact ⟨D, h1, h2, by omega⟩
  | jumpFalse d =>
    obtain ⟨D, h1, h2, h3⟩ := h
    exact ⟨D, h1, h2, by omega⟩
  | _ => exact h

theorem PInv.refl (a : CompState) : PInv [] a a where
  lenLe := Nat.le.refl
  agrees := fun _ _ => rfl
  newOk := fun i ins hge _ hsome => by
    rw [List.getElem?_eq_none hge] at hsome
    cases hsome
  pendBound := by simp
  constOk := fun h => h

/-- A state change that leaves the chunk untouched (scope-depth updates,
locals pushes) preserves the invariant. -/
theorem PInv.chunkCongr {pend : List Nat} {a b c : CompState}
    (h : PInv pend a b) (hc : c.chunk = b.chunk) : PInv pend a c where
  lenLe := hc ▸ h.lenLe
  agrees := hc ▸ h.agrees
  newOk := hc ▸ h.newOk
  pendBound := hc ▸ h.pendBound
  constOk := hc ▸ h.constOk

/-- Writing an instruction that is well-formed at its landing index. -/
theorem PInv.writeOk {pend : List Nat} {a b : CompState}
    (h : PInv pend a b) (ins : Instruction) (p : ByteRange)
    (hins : instrOkM b.chunk.code.length (b.chunk.code.length + 1) ins) :
    PInv pend a (b.write ins p) where
  lenLe := by
    have hab := h.lenLe
    simp only [CompState.write, Chunk.write, List.length_append, List.length_cons,
      List.length_nil]
    omega
  agrees := fun i hi => by
    have hab := h.lenLe
    simp only [CompState.write, Chunk.write]
    rw [List.getElem?_append_left (by omega : i < b.chunk.code.length)]
    exact h.agrees i hi
  newOk := fun i ins' hge hnp hsome => by
    simp only [CompState.write, Chunk.write] at hsome ⊢
    rcases Nat.lt_trichotomy i b.chunk.code.length with hlt | heq | hgt
    · rw [List.getElem?_append_left hlt] at hsome
      exact (h.newOk i ins' hge hnp hsome).mono (by simp)
    · subst heq
      rw [List.getElem?_concat_length] at hsome
      cases hsome
      simpa using hins
    · rw [List.getElem?_eq_none (by simp; omega)] at hsome
      cases hsome
  pendBound := fun j hj => by
    have hb := h.pendBound j hj
    simp only [CompState.write, Chunk.write, List.length_append, List.length_cons,
      List.length_nil]
    omega
  constOk := h.constOk

/-- Writing a placeholder jump: its site becomes pending. -/
theorem PInv.writePending {pend : List Nat} {a b : CompState}
    (h : PInv pend a b) (ins : Instruction) (p : ByteRange) :
    PInv (b.chunk.code.length :: pend) a (b.write ins p) where
  lenLe := by
    have hab := h.lenLe
    simp only [CompState.write, Chunk.write, List.length_append, List.length_cons,
      List.length_nil]
    omega
  agrees := fun i hi => by
    have hab := h.lenLe
    simp only [CompState.write, Chunk.write]
    rw [List.getElem?_append_left (by omega : i < b.chunk.code.length)]
    exact h.agrees i hi
  newOk := fun i ins' hge hnp hsome => by
    simp only [List.mem_cons, not_or] at hnp
    simp only [CompState.write, Chunk.write] at hsome ⊢
    rcases Nat.lt_trichotomy i b.chunk.code.length with hlt | heq | hgt
    · rw [List.getElem?_append_left hlt] at hsome
      exact (h.newOk i ins' hge hnp.2 hsome).mono (by simp)
    · exact absurd heq hnp.1
    · rw [List.getElem?_eq_none (by simp; omega)] at hsome
      cases hsome
  pendBound := fun j hj => by
    have hab := h.lenLe
    simp only [List.mem_cons] at hj
    simp only [CompState.write, Chunk.write, List.length_append, List.length_cons,
      List.length_nil]
    rcases hj with rfl | hj
    · omega
    · have hb := h.pendBound j hj
      omega
  constOk := h.constOk

/-- Backpatching a pending site with a well-formed jump discharges it. -/
theorem PInv.patch {pend : List Nat} {a b : CompState}
    (h : PInv pend a b) (j : Nat) (hj : j ∈ pend) (ins : Instruction) (pend' : List Nat)
    (hins : instrOkM j b.chunk.code.length ins)
    (hsub : ∀ i ∈ pend', i ∈ pend)
    (himp : ∀ i, i ∉ pend' → i ≠ j → i ∉ pend) :
    PInv pend' a (b.backpatch j ins) where
  lenLe := by
    simp only [CompState.backpatch, Chunk.backpatch, List.length_set]
    exact h.lenLe
  agrees := fun i hi => by
    have hjb := h.pendBound j hj
    obtain ⟨hjb1, hjb2⟩ := hjb
    simp only [CompState.backpatch, Chunk.backpatch]
    rw [List.getElem?_set_ne (by omega : j ≠ i)]
    exact h.agrees i hi
  newOk := fun i ins' hge hnp hsome => by
    have hjb := h.pendBound j hj
    obtain ⟨hjb1, hjb2⟩ := hjb
    simp only [CompState.backpatch, Chunk.backpatch, List.length_set] at hsome ⊢
    by_cases hij : i = j
    · subst hij
      rw [List.getElem?_set_eq_of_lt _ hjb2] at hsome
      cases hsome
      exact hins
    · rw [List.getElem?_set_ne (fun hh => hij hh.symm)] at hsome
      exact h.newOk i ins' hge (himp i hnp hij) hsome
  pendBound := fun j' hj' => by
    have hb := h.pendBound j' (hsub j' hj')
    simp only [CompState.backpatch, Chunk.backpatch, List.length_set]
    exact hb
  constOk := h.constOk

/-- Composition with a complete sub-emission (which has no pending sites
of its own). -/
theorem PInv.step {pend : List Nat} {a b c : CompState}
    (h1 : PInv pend a b) (h2 : PInv [] b c) : PInv pend a c where
  lenLe := Nat.le_trans h1.lenLe h2.lenLe
  agrees := fun i hi => by
    have hab := h1.lenLe
    rw [h2.agrees i (by omega : i < b.chunk.code.length)]
    exact h1.agrees i hi
  newOk := fun i ins hge hnp hsome => by
    by_cases hib : i < b.chunk.code.length
    · rw [h2.agrees i hib] at hsome
      exact (h1.newOk i ins hge hnp hsome).mono h2.lenLe
    · exact h2.newOk i ins (by omega) (by simp) hsome
  pendBound := fun j hj => by
    have := h1.pendBound j hj
    exact ⟨this.1, by have := h2.lenLe; omega⟩
  constOk := fun hc => h2.constOk (h1.constOk hc)

/-- `emit_constant` leaves the code untouched and respects the pool cap. -/
theorem PInv.emitConst {pend : List Nat} {a b b' : CompState} {c : Constant}
    {index : Nat}
    (h : PInv pend a b) (he : b.emitConstant c = .ok (b', index)) :
    PInv pend a b' := by
  revert he
  simp only [CompState.emitConstant, Chunk.addConstant]
  by_cases hlt : b.chunk.constants.length ≥ 256
  · simp [hlt]
  · simp only [hlt, if_false]
    intro he
    cases he
    exact { lenLe := h.lenLe, agrees := h.agrees, newOk := h.newOk,
            pendBound := h.pendBound,
            constOk := fun _ => by
              simp only [List.length_append, List.length_cons, List.length_nil]
              omega }

@[simp]
theorem write_code_length (st : CompState) (ins : Instruction) (p : ByteRange) :
    (CompState.write st ins p).chunk.code.length = st.chunk.code.length + 1 := by
  simp [CompState.write, Chunk.write]

@[simp]
theorem backpatch_code_length (st : CompState) (j : Nat) (ins : Instruction) :
    (CompState.backpatch st j ins).chunk.code.length = st.chunk.code.length := by
  simp [CompState.backpatch, Chunk.backpatch]

/-- Every successful `emit_expression` call only appends to the code, all
appended jump displacements are well-formed, and the constant-pool cap is
preserved. -/
theorem emitExpression_pinv (e : Expression) :
    ∀ (st : CompState) (p : ByteRange) (st' : CompState),
      emitExpression st e p = .ok st' → PInv [] st st' := by
  induction e with
  | stringE s =>
    intro st p st' h
    simp only [emitExpression] at h
    cases hc : st.emitConstant (.string s) with
    | error er => simp only [hc] at h; exact Except.noConfusion h
    | ok pr =>
      obtain ⟨st1, index⟩ := pr
      simp only [hc, Except.ok.injEq] at h
      subst h
      exact ((PInv.refl st).emitConst hc).writeOk _ _ trivial
  | number n =>
    intro st p st' h
    simp only [emitExpression] at h
    cases hc : st.emitConstant (.number n) with
    | error er => simp only [hc] at h; exact Except.noConfusion h
    | ok pr =>
      obtain ⟨st1, index⟩ := pr
      simp only [hc, Except.ok.injEq] at h
      subst h
      exact ((PInv.refl st).emitConst hc).writeOk _ _ trivial
  | identifier id =>
    intro st p st' h
    simp only [emitExpression] at h
    cases hc : st.emitConstant (.string id) with
    | error er => simp only [hc] at h; exact Except.noConfusion h
    | ok pr =>
      obtain ⟨st1, index⟩ := pr
      simp only [hc] at h
      cases hr : resolveLocal st1.locals id with
      | some slot =>
        simp only [hr, Except.ok.injEq] at h
        subst h
        exact ((PInv.refl st).emitConst hc).writeOk _ _ trivial
      | none =>
        simp only [hr, Except.ok.injEq] at h
        subst h
        exact ((PInv.refl st).emitConst hc).writeOk _ _ trivial
  | true =>
    intro st p st' h
    simp only [emitExpression, Except.ok.injEq] at h
    subst h
    exact (PInv.refl st).writeOk _ _ trivial
  | false =>
    intro st p st' h
    simp only [emitExpression, Except.ok.injEq] at h
    subst h
    exact (PInv.refl st).writeOk _ _ trivial
  | nil =>
    intro st p st' h
    simp only [emitExpression, Except.ok.injEq] at h
    subst h
    exact (PInv.refl st).writeOk _ _ trivial
  | unary op e1 ih =>
    intro st p st' h
    simp only [emitExpression] at h
    cases hsub : emitExpression st e1 p with
    | error er => simp only [hsub] at h; exact Except.noConfusion h
    | ok st1 =>
      simp only [hsub] at h
      have P1 := ih st p st1 hsub
      cases op <;> simp only [Except.ok.injEq] at h <;> try exact Except.noConfusion h
      case minus => subst h; exact P1.writeOk _ _ trivial
      case bang => subst h; exact P1.writeOk _ _ trivial
  | assign target source ihT ihS =>
    intro st p st' h
    simp only [emitExpression] at h
    cases target <;> try exact Except.noConfusion h
    case identifier id =>
      cases hc : st.emitConstant (.string id) with
      | error er => simp only [hc] at h; exact Except.noConfusion h
      | ok pr =>
        obtain ⟨st1, index⟩ := pr
        simp only [hc] at h
        cases hsub : emitExpression st1 source p with
        | error er => simp only [hsub] at h; exact Except.noConfusion h
        | ok st2 =>
          simp only [hsub] at h
          have P2 := ((PInv.refl st).emitConst hc).step (ihS st1 p st2 hsub)
          cases hr : resolveLocal st2.locals id with
          | some slot =>
            simp only [hr, Except.ok.injEq] at h
            subst h
            exact P2.writeOk _ _ trivial
          | none =>
            simp only [hr, Except.ok.injEq] at h
            subst h
            exact P2.writeOk _ _ trivial
  | arithmetic l op r ihL ihR =>
    intro st p st' h
    simp only [emitExpression] at h
    cases hl : emitExpression st l p with
    | error er => simp only [hl] at h; exact Except.noConfusion h
    | ok st1 =>
      simp only [hl] at h
      cases hr : emitExpression st1 r p with
      | error er => simp only [hr] at h; exact Except.noConfusion h
      | ok st2 =>
        simp only [hr] at h
        have P2 := (ihL st p st1 hl).step (ihR st1 p st2 hr)
        cases op <;> simp only [Except.ok.injEq] at h <;> try exact Except.noConfusion h
        case plus => subst h; exact P2.writeOk _ _ trivial
        case minus => subst h; exact P2.writeOk _ _ trivial
        case star => subst h; exact P2.writeOk _ _ trivial
        case slash => subst h; exact P2.writeOk _ _ trivial
        case greater => subst h; exact P2.writeOk _ _ trivial
        case less => subst h; exact P2.writeOk _ _ trivial
        case equalEqual => subst h; exact P2.writeOk _ _ trivial
        case greaterEqual => subst h; exact (P2.writeOk .less p trivial).writeOk .not p trivial
        case lessEqual => subst h; exact (P2.writeOk .greater p trivial).writeOk .not p trivial
        case bangEqual => subst h; exact (P2.writeOk .equal p trivial).writeOk .not p trivial
  | logic l op r ihL ihR =>
    intro st p st' h
    simp only [emitExpression] at h
    cases op <;> try exact Except.noConfusion h
    case kwAnd =>
      cases hl : emitExpression st l p with
      | error er => simp only [hl] at h; exact Except.noConfusion h
      | ok st1 =>
        simp only [hl] at h
        cases hr : emitExpression ((st1.write (.jumpFalse 65535) p).write .pop p) r p with
        | error er => simp only [hr] at h; exact Except.noConfusion h
        | ok st3 =>
          simp only [hr, Except.ok.injEq] at h
          subst h
          have P1 := ihL st p st1 hl
          have P3 :=
            ((P1.writePending (.jumpFalse 65535) p).writeOk .pop p trivial).step
              (ihR _ p st3 hr)
          have hlen : st1.chunk.code.length + 2 ≤ st3.chunk.code.length := by
            have := (ihR _ p st3 hr).lenLe
            simp only [write_code_length] at this
            omega
          refine P3.patch _ (by simp) _ [] ?_ (by simp) ?_
          · exact ⟨st3.chunk.code.length - st1.chunk.code.length, rfl, by omega, by omega⟩
          · intro i _ hi2
            simpa using hi2
    case kwOr =>
      cases hl : emitExpression st l p with
      | error er => simp only [hl] at h; exact Except.noConfusion h
      | ok st1 =>
        simp only [hl] at h
        cases hr : emitExpression ((((st1.write (.jumpFalse 65535) p).write
            (.jump 65535) p).backpatch st1.chunk.code.length
              (.jumpFalse ((((st1.write (.jumpFalse 65535) p).write
                  (.jump 65535) p).chunk.code.length -
                st1.chunk.code.length) % 65536))).write .pop p) r p with
        | error er => simp only [hr] at h; exact Except.noConfusion h
        | ok st6 =>
          simp only [hr, Except.ok.injEq] at h
          subst h
          have P1 := ihL st p st1 hl
          have P3 := (P1.writePending (.jumpFalse 65535) p).writePending (.jump 65535) p
          have P4 : PInv [(st1.write (.jumpFalse 65535) p).chunk.code.length] st
              (((st1.write (.jumpFalse 65535) p).write (.jump 65535) p).backpatch
                st1.chunk.code.length
                (.jumpFalse ((((st1.write (.jumpFalse 65535) p).write
                    (.jump 65535) p).chunk.code.length -
                  st1.chunk.code.length) % 65536))) := by
            refine P3.patch st1.chunk.code.length (by simp) _
              [(st1.write (.jumpFalse 65535) p).chunk.code.length] ?_ ?_ ?_
            · refine ⟨2, ?_, by omega, ?_⟩ <;> simp only [write_code_length] <;> omega
            · intro i hi
              simp only [List.mem_singleton] at hi
              simp [hi]
            · intro i hi1 hi2
              simp only [List.mem_singleton] at hi1
              simp only [List.mem_cons, List.mem_singleton, not_or]
              exact ⟨hi1, hi2, by simp⟩
          have P6 := (P4.writeOk .pop p trivial).step (ihR _ p st6 hr)
          have hlen : st1.chunk.code.length + 3 ≤ st6.chunk.code.length := by
            have := (ihR _ p st6 hr).lenLe
            simp only [write_code_length, backpatch_code_length] at this
            omega
          refine P6.patch _ (by simp) _ [] ?_ (by simp) ?himp6
          case himp6 =>
            intro i _ hi2
            simpa using hi2
          refine ⟨st6.chunk.code.length -
            (st1.write (.jumpFalse 65535) p).chunk.code.length, rfl, ?_, ?_⟩ <;>
            simp only [write_code_length] <;> omega

/-- Inversion for `Except.bind` succeeding. -/
theorem bindOk {ε α β : Type} {x : Except ε α} {f : α → Except ε β} {b : β}
    (h : x.bind f = .ok b) : ∃ a, x = .ok a ∧ f a = .ok b := by
  cases x with
  | error e => exact Except.noConfusion h
  | ok a => exact ⟨a, rfl, h⟩

theorem emitInitializer_pinv (init : Option Expression) (st : CompState)
    (p : ByteRange) (st1 : CompState) (h : emitInitializer st init p = .ok st1) :
    PInv [] st st1 := by
  cases init with
  | some e => exact emitExpression_pinv e st p st1 h
  | none =>
    simp only [emitInitializer, Except.ok.injEq] at h
    subst h
    exact (PInv.refl st).writeOk .nil p trivial

theorem emitOptExpression_pinv (o : Option Expression) (st : CompState)
    (p : ByteRange) (st1 : CompState) (h : emitOptExpression st o p = .ok st1) :
    PInv [] st st1 := by
  cases o with
  | some e => exact emitExpression_pinv e st p st1 h
  | none =>
    simp only [emitOptExpression, Except.ok.injEq] at h
    subst h
    exact PInv.refl st

/-- The block-exit pop loop only appends `Pop` instructions. -/
theorem dischargeLocals_pinv (st : CompState) (p : ByteRange) :
    PInv [] st (dischargeLocals st p) := by
  rw [dischargeLocals]
  split
  next l hlast =>
    split
    next hdep =>
      have hne : st.locals ≠ [] := by
        intro he
        rw [he] at hlast
        simp at hlast
      have hpos : 0 < st.locals.length := List.length_pos.mpr hne
      have IH := dischargeLocals_pinv
        { st with chunk := st.chunk.write .pop p, locals := st.locals.dropLast } p
      have base : PInv [] st
          { st with chunk := st.chunk.write .pop p, locals := st.locals.dropLast } :=
        ((PInv.refl st).writeOk .pop p trivial).chunkCongr rfl
      exact base.step IH
    next hdep => exact PInv.refl st
  next hlast => exact PInv.refl st
termination_by st.locals.length
decreasing_by
  simp only [List.length_dropLast]
  omega

mutual

/-- Every successful `emit_statement` call only appends to the code, all
appended jump displacements are well-formed, and the constant-pool cap is
preserved. -/
theorem emitStatement_pinv : ∀ (s : Statement) (st : CompState) (p : ByteRange)
    (st' : CompState), emitStatement st s p = .ok st' → PInv [] st st'
  | .varDeclaration name init, st, p, st', h => by
    simp only [emitStatement] at h
    obtain ⟨st1, h1, h⟩ := bindOk h
    obtain ⟨pr, h2, h⟩ := bindOk h
    obtain ⟨st2, index⟩ := pr
    simp only at h
    have P2 := (emitInitializer_pinv init st p st1 h1).emitConst h2
    cases hd : st2.localDepth with
    | zero =>
      simp only [hd, Except.ok.injEq] at h
      subst h
      exact P2.writeOk (.defineGlobal index) p trivial
    | succ n =>
      simp only [hd, CompState.pushLocal] at h
      by_cases hlen : st2.locals.length ≥ 256
      · simp only [if_pos hlen] at h
        exact Except.noConfusion h
      · simp only [if_neg hlen, Except.ok.injEq] at h
        subst h
        exact P2.chunkCongr rfl
  | .print e, st, p, st', h => by
    simp only [emitStatement] at h
    obtain ⟨st1, h1, h⟩ := bindOk h
    simp only [Except.ok.injEq] at h
    subst h
    exact (emitExpression_pinv e st p st1 h1).writeOk .print p trivial
  | .ifS cond then_ otherwise, st, p, st', h => by
    simp only [emitStatement] at h
    obtain ⟨st1, h1, h⟩ := bindOk h
    obtain ⟨st3, h3, h⟩ := bindOk h
    obtain ⟨st7, h7, h⟩ := bindOk h
    simp only [Except.ok.injEq] at h
    subst h
    have P1 := emitExpression_pinv cond st p st1 h1
    have Pt := emitStatement_pinv then_ _ p st3 h3
    have l3 : st1.chunk.code.length + 2 ≤ st3.chunk.code.length := by
      have := Pt.lenLe
      simp only [write_code_length] at this
      omega
    have Pot := emitOptStatement_pinv otherwise _ p st7 h7
    have l7 : st3.chunk.code.length + 2 ≤ st7.chunk.code.length := by
      have := Pot.lenLe
      simp only [write_code_length, backpatch_code_length] at this
      omega
    have P3 := ((P1.writePending (.jumpFalse 65535) p).writeOk .pop p trivial).step Pt
    have P4 := P3.writePending (.jump 65535) p
    have P5 := P4.patch st1.chunk.code.length (by simp)
      (.jumpFalse (((st3.write (.jump 65535) p).chunk.code.length -
        st1.chunk.code.length) % 65536))
      [st3.chunk.code.length]
      (by
        refine ⟨(st3.write (.jump 65535) p).chunk.code.length -
          st1.chunk.code.length, rfl, ?_, ?_⟩ <;>
          simp only [write_code_length] <;> omega)
      (by
        intro i hi
        simp only [List.mem_singleton] at hi
        simp [hi])
      (by
        intro i hi1 hi2
        simp only [List.mem_singleton] at hi1
        simp only [List.mem_cons, List.mem_singleton, not_or]
        exact ⟨hi1, hi2, by simp⟩)
    have P7 := (P5.writeOk .pop p trivial).step Pot
    refine P7.patch _ (by simp) _ [] ?_ (by simp) ?_
    · exact ⟨st7.chunk.code.length - st3.chunk.code.length, rfl, by omega, by omega⟩
    · intro i _ hi2
      simpa using hi2
  | .whileS cond body, st, p, st', h => by
    simp only [emitStatement] at h
    obtain ⟨st1, h1, h⟩ := bindOk h
    obtain ⟨st3, h3, h⟩ := bindOk h
    simp only [Except.ok.injEq] at h
    subst h
    have P1 := emitExpression_pinv cond st p st1 h1
    have l1 : st.chunk.code.length ≤ st1.chunk.code.length := P1.lenLe
    have Pb := emitStatement_pinv body _ p st3 h3
    have l3 : st1.chunk.code.length + 2 ≤ st3.chunk.code.length := by
      have := Pb.lenLe
      simp only [write_code_length] at this
      omega
    have P3 := ((P1.writePending (.jumpFalse 65535) p).writeOk .pop p trivial).step Pb
    have P4 := P3.writeOk
      (.loop ((st3.chunk.code.length - st.chunk.code.length) % 65536)) p
      ⟨st3.chunk.code.length - st.chunk.code.length, rfl, by omega, by omega⟩
    have P5 := P4.patch st1.chunk.code.length (by simp)
      (.jumpFalse (((st3.write
        (.loop ((st3.chunk.code.length - st.chunk.code.length) % 65536)) p).chunk.code.length -
          st1.chunk.code.length) % 65536))
      []
      (by
        refine ⟨(st3.write
          (.loop ((st3.chunk.code.length - st.chunk.code.length) % 65536))
            p).chunk.code.length - st1.chunk.code.length, rfl, ?_, ?_⟩ <;>
          simp only [write_code_length] <;> omega)
      (by simp)
      (by
        intro i _ hi2
        simpa using hi2)
    exact P5.writeOk .pop p trivial
  | .forS init cond inc body, st, p, st', h => by
    simp only [emitStatement] at h
    obtain ⟨st1, h1, h⟩ := bindOk h
    obtain ⟨st2, h2, h⟩ := bindOk h
    obtain ⟨st5, h5, h⟩ := bindOk h
    obtain ⟨st9, h9, h⟩ := bindOk h
    simp only [Except.ok.injEq] at h
    subst h
    have P0 : PInv [] st { st with localDepth := st.localDepth + 1 } :=
      (PInv.refl st).chunkCongr rfl
    have P1 := P0.step (emitOptExpression_pinv init _ p st1 h1)
    have l1 : st.chunk.code.length ≤ st1.chunk.code.length := P1.lenLe
    have P2 := P1.step (emitOptExpression_pinv cond _ p st2 h2)
    have l2 : st1.chunk.code.length ≤ st2.chunk.code.length :=
      (emitOptExpression_pinv cond _ p st2 h2).lenLe
    have l5 : st2.chunk.code.length + 3 ≤ st5.chunk.code.length := by
      have := (emitOptExpression_pinv inc _ p st5 h5).lenLe
      simp only [write_code_length] at this
      omega
    have l9 : st5.chunk.code.length + 2 ≤ st9.chunk.code.length := by
      have := (emitStatement_pinv body _ p st9 h9).lenLe
      simp only [write_code_length, backpatch_code_length] at this
      omega
    have P3 := (P2.writePending (.jumpFalse 65535) p).writeOk .pop p trivial
    have P4 := P3.writePending (.jump 65535) p
    have P5 := P4.step (emitOptExpression_pinv inc _ p st5 h5)
    have P6 := P5.writeOk .pop p trivial
    have P7 := P6.writeOk
      (.loop (((st5.write .pop p).chunk.code.length -
        st1.chunk.code.length) % 65536)) p
      (by
        refine ⟨(st5.write .pop p).chunk.code.length -
          st1.chunk.code.length, rfl, ?_, ?_⟩ <;>
          simp only [write_code_length] <;> omega)
    have P8 := P7.patch
      ((st2.write (.jumpFalse 65535) p).write .pop p).chunk.code.length (by simp)
      (.jump ((((st5.write .pop p).write
        (.loop (((st5.write .pop p).chunk.code.length -
          st1.chunk.code.length) % 65536)) p).chunk.code.length -
        ((st2.write (.jumpFalse 65535) p).write .pop p).chunk.code.length) % 65536))
      [st2.chunk.code.length]
      (by
        refine ⟨((st5.write .pop p).write
          (.loop (((st5.write .pop p).chunk.code.length -
            st1.chunk.code.length) % 65536)) p).chunk.code.length -
          ((st2.write (.jumpFalse 65535) p).write .pop p).chunk.code.length,
          rfl, ?_, ?_⟩ <;>
          simp only [write_code_length] <;> omega)
      (by
        intro i hi
        simp only [List.mem_singleton] at hi
        simp [hi])
      (by
        intro i hi1 hi2
        simp only [List.mem_singleton] at hi1
        simp only [List.mem_cons, List.mem_singleton, not_or]
        exact ⟨hi2, hi1, by simp⟩)
    have P9 := P8.step (emitStatement_pinv body _ p st9 h9)
    have P10 := P9.writeOk
      (.loop ((st9.chunk.code.length -
        (((st2.write (.jumpFalse 65535) p).write .pop p).write
          (.jump 65535) p).chunk.code.length) % 65536)) p
      (by
        refine ⟨st9.chunk.code.length -
          (((st2.write (.jumpFalse 65535) p).write .pop p).write
            (.jump 65535) p).chunk.code.length, rfl, ?_, ?_⟩ <;>
          simp only [write_code_length] <;> omega)
    have P11 := P10.patch st2.chunk.code.length (by simp)
      (.jumpFalse (((st9.write
        (.loop ((st9.chunk.code.length -
          (((st2.write (.jumpFalse 65535) p).write .pop p).write
            (.jump 65535) p).chunk.code.length) % 65536)) p).chunk.code.length -
        st2.chunk.code.length) % 65536))
      []
      (by
        refine ⟨(st9.write
          (.loop ((st9.chunk.code.length -
            (((st2.write (.jumpFalse 65535) p).write .pop p).write
              (.jump 65535) p).chunk.code.length) % 65536)) p).chunk.code.length -
          st2.chunk.code.length, rfl, ?_, ?_⟩ <;>
          simp only [write_code_length] <;> omega)
      (by simp)
      (by
        intro i _ hi2
        simpa using hi2)
    exact (P11.writeOk .pop p trivial).chunkCongr rfl
  | .forWithInit init cond inc body, st, p, st', h => by
    simp only [emitStatement] at h
    obtain ⟨st1, h1, h⟩ := bindOk h
    obtain ⟨st2, h2, h⟩ := bindOk h
    obtain ⟨st5, h5, h⟩ := bindOk h
    obtain ⟨st9, h9, h⟩ := bindOk h
    simp only [Except.ok.injEq] at h
    subst h
    have P0 : PInv [] st { st with localDepth := st.localDepth + 1 } :=
      (PInv.refl st).chunkCongr rfl
    have P1 := P0.step (emitOptStatement_pinv init _ p st1 h1)
    have l1 : st.chunk.code.length ≤ st1.chunk.code.length := P1.lenLe
    have P2 := P1.step (emitOptExpression_pinv cond _ p st2 h2)
    have l2 : st1.chunk.code.length ≤ st2.chunk.code.length :=
      (emitOptExpression_pinv cond _ p st2 h2).lenLe
    have l5 : st2.chunk.code.length + 3 ≤ st5.chunk.code.length := by
      have := (emitOptExpression_pinv inc _ p st5 h5).lenLe
      simp only [write_code_length] at this
      omega
    have l9 : st5.chunk.code.length + 2 ≤ st9.chunk.code.length := by
      have := (emitStatement_pinv body _ p st9 h9).lenLe
      simp only [write_code_length, backpatch_code_length] at this
      omega
    have P3 := (P2.writePending (.jumpFalse 65535) p).writeOk .pop p trivial
    have P4 := P3.writePending (.jump 65535) p
    have P5 := P4.step (emitOptExpression_pinv inc _ p st5 h5)
    have P6 := P5.writeOk .pop p trivial
    have P7 := P6.writeOk
      (.loop (((st5.write .pop p).chunk.code.length -
        st1.chunk.code.length) % 65536)) p
      (by
        refine ⟨(st5.write .pop p).chunk.code.length -
          st1.chunk.code.length, rfl, ?_, ?_⟩ <;>
          simp only [write_code_length] <;> omega)
    have P8 := P7.patch
      ((st2.write (.jumpFalse 65535) p).write .pop p).chunk.code.length (by simp)
      (.jump ((((st5.write .pop p).write
        (.loop (((st5.write .pop p).chunk.code.length -
          st1.chunk.code.length) % 65536)) p).chunk.code.length -
        ((st2.write (.jumpFalse 65535) p).write .pop p).chunk.code.length) % 65536))
      [st2.chunk.code.length]
      (by
        refine ⟨((st5.write .pop p).write
          (.loop (((st5.write .pop p).chunk.code.length -
            st1.chunk.code.length) % 65536)) p).chunk.code.length -
          ((st2.write (.jumpFalse 65535) p).write .pop p).chunk.code.length,
          rfl, ?_, ?_⟩ <;>
          simp only [write_code_length] <;> omega)
      (by
        intro i hi
        simp only [List.mem_singleton] at hi
        simp [hi])
      (by
        intro i hi1 hi2
        simp only [List.mem_singleton] at hi1
        simp only [List.mem_cons, List.mem_singleton, not_or]
        exact ⟨hi2, hi1, by simp⟩)
    have P9 := P8.step (emitStatement_pinv body _ p st9 h9)
    have P10 := P9.writeOk
      (.loop ((st9.chunk.code.length -
        (((st2.write (.jumpFalse 65535) p).write .pop p).write
          (.jump 65535) p).chunk.code.length) % 65536)) p
      (by
        refine ⟨st9.chunk.code.length -
          (((st2.write (.jumpFalse 65535) p).write .pop p).write
            (.jump 65535) p).chunk.code.length, rfl, ?_, ?_⟩ <;>
          simp only [write_code_length] <;> omega)
    have P11 := P10.patch st2.chunk.code.length (by simp)
      (.jumpFalse (((st9.write
        (.loop ((st9.chunk.code.length -
          (((st2.write (.jumpFalse 65535) p).write .pop p).write
            (.jump 65535) p).chunk.code.length) % 65536)) p).chunk.code.length -
        st2.chunk.code.length) % 65536))
      []
      (by
        refine ⟨(st9.write
          (.loop ((st9.chunk.code.length -
            (((st2.write (.jumpFalse 65535) p).write .pop p).write
              (.jump 65535) p).chunk.code.length) % 65536)) p).chunk.code.length -
          st2.chunk.code.length, rfl, ?_, ?_⟩ <;>
          simp only [write_code_length] <;> omega)
      (by simp)
      (by
        intro i _ hi2
        simpa using hi2)
    exact (P11.writeOk .pop p trivial).chunkCongr rfl
  | .block statements positions, st, p, st', h => by
    simp only [emitStatement] at h
    obtain ⟨st1, h1, h⟩ := bindOk h
    simp only [Except.ok.injEq] at h
    subst h
    have P0 : PInv [] st { st with localDepth := st.localDepth + 1 } :=
      (PInv.refl st).chunkCongr rfl
    have P1 := P0.step (emitStatements_pinv statements _ positions st1 h1)
    exact (P1.step (dischargeLocals_pinv st1 p)).chunkCongr rfl
  | .expressional e, st, p, st', h => by
    simp only [emitStatement] at h
    obtain ⟨st1, h1, h⟩ := bindOk h
    simp only [Except.ok.injEq] at h
    subst h
    exact (emitExpression_pinv e st p st1 h1).writeOk .pop p trivial
  | .error, _, _, _, h => Except.noConfusion h

theorem emitOptStatement_pinv : ∀ (o : Option Statement) (st : CompState)
    (p : ByteRange) (st1 : CompState), emitOptStatement st o p = .ok st1 →
    PInv [] st st1
  | some s, st, p, st1, h => emitStatement_pinv s st p st1 h
  | none, st, p, st1, h => by
    simp only [emitOptStatement, Except.ok.injEq] at h
    subst h
    exact PInv.refl st

theorem emitStatements_pinv : ∀ (ss : List Statement) (st : CompState)
    (ps : List ByteRange) (st' : CompState), emitStatements st ss ps = .ok st' →
    PInv [] st st'
  | [], st, ps, st', h => by
    simp only [emitStatements, Except.ok.injEq] at h
    subst h
    exact PInv.refl st
  | _ :: _, st, [], st', h => by
    simp only [emitStatements, Except.ok.injEq] at h
    subst h
    exact PInv.refl st
  | s :: ss, st, p :: ps, st', h => by
    simp only [emitStatements] at h
    obtain ⟨st1, h1, h⟩ := bindOk h
    exact (emitStatement_pinv s st p st1 h1).step (emitStatements_pinv ss st1 ps st' h)

end

/-! ## C8: short-circuit `and` -/

/-- C8 (amended): `a and b` short-circuits whenever the region the jump
must skip is shorter than 65536 instructions. The `Token::And` arm
compiles `a and b` to `<a>; JumpFalse d; Pop; <b>`, backpatching the
displacement as `(len - patch) as u16`; provided
`sB.len - sA.len < 65536` (no 16-bit wrap — see the counterexample for
why this bound is necessary) the stored displacement lands exactly at the
end of `<b>`'s code. At run time, when the machine sits on that
`JumpFalse` with `a`'s value `v` on top: if `v` is falsy (`false`/`nil`,
`as_bool = false`) one single step moves execution directly past `<b>` —
no instruction of `<b>` runs, and stack, globals, heap and output are
untouched, so the result on the stack is still `v`; if `v` is truthy, the
machine steps to the following `Pop`, which removes `a`'s value, and
execution continues at the first instruction of `<b>`, whose result is
whatever `<b>` leaves on the stack. -/
theorem c8_and_short_circuit (st : CompState) (a b : Expression) (p : ByteRange)
    (st' : CompState)
    (hemit : emitExpression st (.logic a Token.kwAnd b) p = .ok st') :
    ∃ sA sB : CompState,
      emitExpression st a p = .ok sA ∧
      emitExpression ((sA.write (.jumpFalse 65535) p).write .pop p) b p = .ok sB ∧
      st' = sB.backpatch sA.chunk.code.length
              (.jumpFalse ((sB.chunk.code.length - sA.chunk.code.length) % 65536)) ∧
      (sB.chunk.code.length - sA.chunk.code.length < 65536 →
        sA.chunk.code.length +
            (sB.chunk.code.length - sA.chunk.code.length) % 65536 =
          sB.chunk.code.length) ∧
      (∀ (s : VMState) (d : Nat) (v : Value) (rest : List Value),
         s.code[s.offset]? = some (.jumpFalse d) →
         s.stack = rest ++ [v] →
         (v.as_bool = Bool.false → s.offset + d < s.code.length →
            step s = .next { s with offset := s.offset + d }) ∧
         (v.as_bool = Bool.true → step s = .next { s with offset := s.offset + 1 })) ∧
      (∀ (s : VMState) (v : Value) (rest : List Value),
         s.code[s.offset]? = some .pop →
         s.stack = rest ++ [v] →
         step s = .next { s with offset := s.offset + 1, stack := rest }) := by
  simp only [emitExpression] at hemit
  cases ha : emitExpression st a p with
  | error er => simp only [ha] at hemit; exact Except.noConfusion hemit
  | ok sA =>
    simp only [ha] at hemit
    cases hb : emitExpression ((sA.write (.jumpFalse 65535) p).write .pop p) b p with
    | error er => simp only [hb] at hemit; exact Except.noConfusion hemit
    | ok sB =>
      simp only [hb, Except.ok.injEq] at hemit
      subst hemit
      refine ⟨sA, sB, rfl, hb, rfl, ?_, ?_, ?_⟩
      · intro hlt
        have hmono := (emitExpression_pinv b _ p sB hb).lenLe
        simp only [write_code_length] at hmono
        rw [Nat.mod_eq_of_lt hlt]
        omega
      · intro s d v rest hc hst
        constructor
        · intro hfalse hlt
          have hge : ¬ s.offset + d ≥ s.code.length := by omega
          simp only [step, hc, hst, List.getLast?_concat, hfalse,
            Bool.false_eq_true, if_false, hge]
        · intro htrue
          simp only [step, hc, hst, List.getLast?_concat, htrue, if_true]
      · intro s v rest hc hst
        simp only [step, hc, hst, List.getLast?_concat, List.dropLast_concat]

/-- Witness for C8: the theorem applied to the concrete emission of
`false and true`. -/
theorem c8_and_short_circuit_witness :
    ∃ sA sB : CompState,
      emitExpression (CompState.new 0) .false ⟨0, 0⟩ = .ok sA ∧
      emitExpression ((sA.write (.jumpFalse 65535) ⟨0, 0⟩).write .pop ⟨0, 0⟩)
          .true ⟨0, 0⟩ = .ok sB ∧
      c8Result = sB.backpatch sA.chunk.code.length
              (.jumpFalse ((sB.chunk.code.length - sA.chunk.code.length) % 65536)) ∧
      (sB.chunk.code.length - sA.chunk.code.length < 65536 →
        sA.chunk.code.length +
            (sB.chunk.code.length - sA.chunk.code.length) % 65536 =
          sB.chunk.code.length) ∧
      (∀ (s : VMState) (d : Nat) (v : Value) (rest : List Value),
         s.code[s.offset]? = some (.jumpFalse d) →
         s.stack = rest ++ [v] →
         (v.as_bool = Bool.false → s.offset + d < s.code.length →
            step s = .next { s with offset := s.offset + d }) ∧
         (v.as_bool = Bool.true → step s = .next { s with offset := s.offset + 1 })) ∧
      (∀ (s : VMState) (v : Value) (rest : List Value),
         s.code[s.offset]? = some .pop →
         s.stack = rest ++ [v] →
         step s = .next { s with offset := s.offset + 1, stack := rest }) :=
  c8_and_short_circuit (CompState.new 0) .false .true ⟨0, 0⟩ c8Result (by rfl)

/-- Chunk-level invariant derived from the emission invariant: a compiled
chunk's constant pool never exceeds 256 entries, and — provided the chunk
fits the 16-bit displacement encoding, i.e. has at most 65536
instructions — all jump displacements are well-formed. -/
theorem compileChunk_invariants (fileId : Nat) (ss : List Statement)
    (ps : List ByteRange) (ch : Chunk) (h : compileChunk fileId ss ps = .ok ch) :
    ch.constants.length ≤ 256 ∧
    (ch.code.length ≤ 65536 → jumpsOk ch.code) := by
  simp only [compileChunk] at h
  cases hE : emitStatements (CompState.new fileId) ss ps with
  | error er => simp only [hE] at h; exact Except.noConfusion h
  | ok stF =>
    simp only [hE, Except.ok.injEq] at h
    subst h
    have P := emitStatements_pinv ss (CompState.new fileId) ps stF hE
    constructor
    · exact P.constOk (by simp [CompState.new, Chunk.new])
    · intro hlen
      simp only [CompState.write, Chunk.write, List.length_append,
        List.length_cons, List.length_nil] at hlen
      intro i ins hget
      simp only [CompState.write, Chunk.write] at hget
      rcases Nat.lt_trichotomy i stF.chunk.code.length with hlt | heq | hgt
      · rw [List.getElem?_append_left hlt] at hget
        have hok := P.newOk i ins (by simp [CompState.new, Chunk.new]) (by simp) hget
        refine ⟨?_, ?_, ?_⟩
        · intro d hd
          subst hd
          obtain ⟨D, h1, h2, h3⟩ := hok
          have hDlt : D < 65536 := by omega
          rw [Nat.mod_eq_of_lt hDlt] at h1
          subst h1
          simp only [CompState.write, Chunk.write, List.length_append,
            List.length_cons, List.length_nil]
          omega
        · intro d hd
          subst hd
          obtain ⟨D, h1, h2, h3⟩ := hok
          have hDlt : D < 65536 := by omega
          rw [Nat.mod_eq_of_lt hDlt] at h1
          subst h1
          simp only [CompState.write, Chunk.write, List.length_append,
            List.length_cons, List.length_nil]
          omega
        · intro d hd
          subst hd
          obtain ⟨D, h1, h2, h3⟩ := hok
          have hDlt : D < 65536 := by omega
          rw [Nat.mod_eq_of_lt hDlt] at h1
          subst h1
          omega
      · subst heq
        rw [List.getElem?_concat_length] at hget
        cases hget
        exact ⟨fun d hd => Instruction.noConfusion hd,
               fun d hd => Instruction.noConfusion hd,
               fun d hd => Instruction.noConfusion hd⟩
      · rw [List.getElem?_eq_none (by simp; omega)] at hget
        cases hget

/-- C3 (amended): for every program that compiles successfully into a
chunk of at most 65536 instructions, every `Jump`, `JumpFalse` and `Loop`
instruction carries a non-zero displacement whose target lies within
`[0, len(code))`. (Without the length bound the claim fails: the `as u16`
casts in the emitter wrap, see the counterexample.) -/
theorem c3_jumps_nonzero_in_bounds (fileId : Nat) (ss : List Statement)
    (ps : List ByteRange) (ch : Chunk) (h : compileChunk fileId ss ps = .ok ch)
    (hlen : ch.code.length ≤ 65536) : jumpsOk ch.code :=
  (compileChunk_invariants fileId ss ps ch h).2 hlen

/-- Witness for the amended C3: the compiled `while (true) print 1;`
satisfies the jump property. -/
theorem c3_jumps_nonzero_in_bounds_witness : jumpsOk c3WitnessChunk.code :=
  c3_jumps_nonzero_in_bounds 0
    [.whileS .true (.print (.number 1))] [⟨0, 22⟩] c3WitnessChunk
    (by rfl) (by decide)

/-- Emitting `1;` appends the constant and two instructions, or fails with
E0001 exactly when the pool is already full. -/
theorem emitStatement_c9 (st : CompState) (p : ByteRange) :
    emitStatement st c9Stmt p =
      if st.chunk.constants.length ≥ 256 then .error .e0001TooManyConstants
      else .ok ⟨⟨st.chunk.fileId,
                 (st.chunk.code ++ [.constant st.chunk.constants.length]) ++ [.pop],
                 (st.chunk.positions ++ [p]) ++ [p],
                 st.chunk.constants ++ [.number 1]⟩,
                st.locals, st.localDepth⟩ := by
  by_cases hc : st.chunk.constants.length ≥ 256 <;>
    simp [c9Stmt, emitStatement, emitExpression, CompState.emitConstant,
      Chunk.addConstant, hc, CompState.write, Chunk.write, Except.bind]

/-- Emitting `n` copies of `1;` succeeds as long as the pool has room for
all of them, growing the pool by exactly `n`. -/
theorem emitStatements_c9_ok (n : Nat) : ∀ (st : CompState) (p : ByteRange),
    st.chunk.constants.length + n ≤ 256 →
    ∃ stF, emitStatements st (List.replicate n c9Stmt) (List.replicate n p) =
        .ok stF ∧
      stF.chunk.constants.length = st.chunk.constants.length + n := by
  induction n with
  | zero =>
    intro st p _
    exact ⟨st, rfl, by simp⟩
  | succ n ih =>
    intro st p h
    rw [List.replicate_succ, List.replicate_succ]
    simp only [emitStatements]
    rw [emitStatement_c9]
    have hc : ¬ st.chunk.constants.length ≥ 256 := by omega
    simp only [if_neg hc, Except.bind]
    obtain ⟨stF, hF, hlen⟩ := ih
      ⟨⟨st.chunk.fileId,
        (st.chunk.code ++ [.constant st.chunk.constants.length]) ++ [.pop],
        (st.chunk.positions ++ [p]) ++ [p],
        st.chunk.constants ++ [.number 1]⟩,
       st.locals, st.localDepth⟩ p
      (by simp only [List.length_append, List.length_cons, List.length_nil]; omega)
    refine ⟨stF, hF, ?_⟩
    rw [hlen]
    simp only [List.length_append, List.length_cons, List.length_nil]
    omega

/-- Once the pool cannot hold all `n` constants, emission fails with
E0001. -/
theorem emitStatements_c9_err (n : Nat) : ∀ (st : CompState) (p : ByteRange),
    256 < st.chunk.constants.length + n → st.chunk.constants.length ≤ 256 →
    emitStatements st (List.replicate n c9Stmt) (List.replicate n p) =
      .error .e0001TooManyConstants := by
  induction n with
  | zero =>
    intro st p h1 h2
    omega
  | succ n ih =>
    intro st p h1 h2
    rw [List.replicate_succ, List.replicate_succ]
    simp only [emitStatements]
    rw [emitStatement_c9]
    by_cases hc : st.chunk.constants.length ≥ 256
    · simp only [if_pos hc, Except.bind]
    · simp only [if_neg hc, Except.bind]
      refine ih _ p ?_ ?_ <;>
        simp only [List.length_append, List.length_cons, List.length_nil] <;>
        omega

/-- C9: `add_constant` succeeds exactly when the pool currently holds
fewer than 256 entries, so compiled chunks never exceed 256 constants; a
program with 256 constant occurrences (256 copies of `1;` — the pool is
never deduplicated) compiles, and one with 257 fails with E0001. -/
theorem c9_constant_pool_cap :
    (∀ (ch : Chunk) (c : Constant),
        (ch.addConstant c).isSome ↔ ch.constants.length < 256) ∧
    (∀ (fileId : Nat) (ss : List Statement) (ps : List ByteRange) (ch : Chunk),
        compileChunk fileId ss ps = .ok ch → ch.constants.length ≤ 256) ∧
    (compileChunk 0 (List.replicate 256 c9Stmt)
      (List.replicate 256 ⟨0, 0⟩)).isOk = Bool.true ∧
    compileChunk 0 (List.replicate 257 c9Stmt) (List.replicate 257 ⟨0, 0⟩) =
      .error .e0001TooManyConstants := by
  refine ⟨?_, ?_, ?_, ?_⟩
  · intro ch c
    by_cases hc : ch.constants.length ≥ 256 <;>
      simp [Chunk.addConstant, hc] <;> omega
  · intro fileId ss ps ch h
    exact (compileChunk_invariants fileId ss ps ch h).1
  · obtain ⟨stF, hF, _⟩ := emitStatements_c9_ok 256 (CompState.new 0) ⟨0, 0⟩
      (by simp [CompState.new, Chunk.new])
    simp only [compileChunk, hF, Except.isOk, Except.toBool]
  · have hE := emitStatements_c9_err 257 (CompState.new 0) ⟨0, 0⟩
      (by simp [CompState.new, Chunk.new]) (by simp [CompState.new, Chunk.new])
    simp only [compileChunk, hE]

/-- Witness for C9 at a concrete chunk. -/
theorem c9_constant_pool_cap_witness :
    ((Chunk.new 0).addConstant (.number 1)).isSome ↔
      (Chunk.new 0).constants.length < 256 :=
  c9_constant_pool_cap.1 (Chunk.new 0) (.number 1)

theorem emitStatement_true (st : CompState) (p : ByteRange) :
    emitStatement st trueStmt p = .ok ((st.write .true p).write .pop p) := rfl

theorem emitStatements_true (n : Nat) : ∀ (st : CompState) (p : ByteRange),
    emitStatements st (List.replicate n trueStmt) (List.replicate n p) =
      .ok (appendTrues st n p) := by
  induction n with
  | zero => intro st p; rfl
  | succ n ih =>
    intro st p
    rw [List.replicate_succ, List.replicate_succ]
    simp only [emitStatements, emitStatement_true, Except.bind]
    exact ih _ p

theorem appendTrues_spec (n : Nat) : ∀ (st : CompState) (p : ByteRange),
    (appendTrues st n p).chunk.code.length = st.chunk.code.length + 2 * n ∧
    (appendTrues st n p).locals = st.locals ∧
    (appendTrues st n p).localDepth = st.localDepth := by
  induction n with
  | zero => intro st p; exact ⟨by simp [appendTrues], rfl, rfl⟩
  | succ n ih =>
    intro st p
    simp only [appendTrues]
    obtain ⟨h1, h2, h3⟩ := ih ((st.write .true p).write .pop p) p
    refine ⟨?_, h2, h3⟩
    rw [h1]
    simp only [write_code_length]
    omega

/-- With no locals on the compiler stack, the block-exit pop loop is a
no-op. -/
theorem dischargeLocals_nil (st : CompState) (p : ByteRange)
    (h : st.locals = []) : dischargeLocals st p = st := by
  rw [dischargeLocals]
  split
  next l hlast =>
    rw [h] at hlast
    simp at hlast
  next => rfl

/-- Emitting the big else block from a local-free state: the pop loop is a
no-op, so the result is just `appendTrues` with the depth bumped and then
restored. -/
theorem c3_block_emit (st : CompState) (p : ByteRange) (h : st.locals = []) :
    emitStatement st c3Else p =
      .ok (CompState.mk
        (appendTrues (CompState.mk st.chunk st.locals (st.localDepth + 1))
          32767 pZ).chunk
        (appendTrues (CompState.mk st.chunk st.locals (st.localDepth + 1))
          32767 pZ).locals
        ((appendTrues (CompState.mk st.chunk st.locals (st.localDepth + 1))
          32767 pZ).localDepth - 1)) := by
  simp only [emitStatement, c3Else, Except.bind]
  rw [emitStatements_true]
  simp only [Except.bind]
  rw [dischargeLocals_nil]
  rw [(appendTrues_spec 32767
    (CompState.mk st.chunk st.locals (st.localDepth + 1)) pZ).2.1]
  exact h

/-- `Chunk::write` appends the instruction to the code vector. -/
theorem chunk_write_code (c : Chunk) (i : Instruction) (p : ByteRange) :
    (c.write i p).code = c.code ++ [i] := rfl

/-- Backpatching overwrites the code entry at the patch site. -/
theorem compState_backpatch_code (st : CompState) (j : Nat) (i : Instruction) :
    (st.backpatch j i).chunk.code = st.chunk.code.set j i := rfl

/-- The `If` arm of `emit_statement`, read off the source step by step with
the intermediate compiler states abstracted: condition, then-branch with
its `JumpFalse` placeholder, backpatch, `Pop`, optional else branch, and
the final `Jump` backpatch over the else branch. -/
theorem emitStatement_ifS (st st1 st3 st7 : CompState) (cond : Expression)
    (thn : Statement) (o : Option Statement) (p : ByteRange)
    (h1 : emitExpression st cond p = .ok st1)
    (h3 : emitStatement ((st1.write (.jumpFalse 65535) p).write .pop p) thn p
            = .ok st3)
    (h7 : emitOptStatement
        (((st3.write (.jump 65535) p).backpatch st1.chunk.code.length
            (.jumpFalse (((st3.write (.jump 65535) p).chunk.code.length -
              st1.chunk.code.length) % 65536))).write .pop p) o p = .ok st7) :
    emitStatement st (.ifS cond thn o) p =
      .ok (st7.backpatch st3.chunk.code.length
        (.jump ((st7.chunk.code.length - st3.chunk.code.length) % 65536))) := by
  simp only [emitStatement, h1, Except.bind, h3, h7]

/-- A one-statement program runs `emit_statement` once. -/
theorem emitStatements_singleton (st : CompState) (s : Statement) (p : ByteRange) :
    emitStatements st [s] [p] = emitStatement st s p := by
  cases h : emitStatement st s p with
  | error e => simp only [emitStatements, h, Except.bind]
  | ok st1 => simp only [emitStatements, h, Except.bind]

theorem c3St3_len : c3St3.chunk.code.length = 5 := by
  simp only [c3St3, c3St1, write_code_length]
  simp [CompState.new, Chunk.new]

theorem c3StSix_len : c3StSix.chunk.code.length = 7 := by
  simp only [c3StSix, write_code_length, backpatch_code_length, c3St3, c3St1]
  simp [CompState.new, Chunk.new]

/-- Projecting the chunk out of a literal compiler state. -/
theorem compState_mk_chunk (c : Chunk) (l : List Local) (d : Nat) :
    (CompState.mk c l d).chunk = c := rfl

/-- `toOption`/`map` on a successful compile result. -/
theorem except_ok_map_toOption {α β : Type} (f : α → β) (a : α) :
    Option.map f (Except.ok a : Except CompileErr α).toOption = some (f a) := rfl

theorem c3_else_emit :
    emitOptStatement c3StSix (some c3Else) pZ =
      .ok (CompState.mk (appendTrues (CompState.mk c3StSix.chunk c3StSix.locals (c3StSix.localDepth + 1)) 32767 pZ).chunk (appendTrues (CompState.mk c3StSix.chunk c3StSix.locals (c3StSix.localDepth + 1)) 32767 pZ).locals ((appendTrues (CompState.mk c3StSix.chunk c3StSix.locals (c3StSix.localDepth + 1)) 32767 pZ).localDepth - 1)) := by
  simp only [emitOptStatement]
  exact c3_block_emit c3StSix pZ rfl

theorem c3_if_emit :
    emitStatement (CompState.new 0)
        (.ifS .true (.expressional .true) (some c3Else)) pZ =
      .ok (CompState.backpatch (CompState.mk (appendTrues (CompState.mk c3StSix.chunk c3StSix.locals (c3StSix.localDepth + 1)) 32767 pZ).chunk (appendTrues (CompState.mk c3StSix.chunk c3StSix.locals (c3StSix.localDepth + 1)) 32767 pZ).locals ((appendTrues (CompState.mk c3StSix.chunk c3StSix.locals (c3StSix.localDepth + 1)) 32767 pZ).localDepth - 1)) c3St3.chunk.code.length (.jump (((CompState.mk (appendTrues (CompState.mk c3StSix.chunk c3StSix.locals (c3StSix.localDepth + 1)) 32767 pZ).chunk (appendTrues (CompState.mk c3StSix.chunk c3StSix.locals (c3StSix.localDepth + 1)) 32767 pZ).locals ((appendTrues (CompState.mk c3StSix.chunk c3StSix.locals (c3StSix.localDepth + 1)) 32767 pZ).localDepth - 1)).chunk.code.length - c3St3.chunk.code.length) % 65536))) := by
  refine emitStatement_ifS (CompState.new 0) c3St1 c3St3
    (CompState.mk (appendTrues (CompState.mk c3StSix.chunk c3StSix.locals (c3StSix.localDepth + 1)) 32767 pZ).chunk (appendTrues (CompState.mk c3StSix.chunk c3StSix.locals (c3StSix.localDepth + 1)) 32767 pZ).locals ((appendTrues (CompState.mk c3StSix.chunk c3StSix.locals (c3StSix.localDepth + 1)) 32767 pZ).localDepth - 1))
    .true (.expressional .true) (some c3Else) pZ rfl ?_ ?_
  · exact emitStatement_true ((c3St1.write (.jumpFalse 65535) pZ).write .pop pZ) pZ
  · exact c3_else_emit

theorem c3_append_len :
    (appendTrues (CompState.mk c3StSix.chunk c3StSix.locals (c3StSix.localDepth + 1)) 32767 pZ).chunk.code.length = 65541 := by
  rw [(appendTrues_spec 32767 (CompState.mk c3StSix.chunk c3StSix.locals (c3StSix.localDepth + 1)) pZ).1]
  rw [compState_mk_chunk, c3StSix_len]

/-- The net displacement of the else-skipping `Jump` is 65536 code units,
which the `as u16` cast stores as 0. -/
theorem c3_displacement :
    (((CompState.mk (appendTrues (CompState.mk c3StSix.chunk c3StSix.locals (c3StSix.localDepth + 1)) 32767 pZ).chunk (appendTrues (CompState.mk c3StSix.chunk c3StSix.locals (c3StSix.localDepth + 1)) 32767 pZ).locals ((appendTrues (CompState.mk c3StSix.chunk c3StSix.locals (c3StSix.localDepth + 1)) 32767 pZ).localDepth - 1)).chunk.code.length - c3St3.chunk.code.length) % 65536) = 0 := by
  rw [compState_mk_chunk, c3_append_len, c3St3_len]

/-- `compile` on a successfully emitted statement list just appends the
final `Return`. -/
theorem compileChunk_ok (fileId : Nat) (ss : List Statement)
    (ps : List ByteRange) (st : CompState)
    (h : emitStatements (CompState.new fileId) ss ps = .ok st) :
    compileChunk fileId ss ps = .ok (st.chunk.write .ret ⟨0, 0⟩) := by
  simp only [compileChunk, h]

theorem c3_compile_eq :
    compileChunk 0 c3Prog [pZ] =
      .ok ((CompState.backpatch (CompState.mk (appendTrues (CompState.mk c3StSix.chunk c3StSix.locals (c3StSix.localDepth + 1)) 32767 pZ).chunk (appendTrues (CompState.mk c3StSix.chunk c3StSix.locals (c3StSix.localDepth + 1)) 32767 pZ).locals ((appendTrues (CompState.mk c3StSix.chunk c3StSix.locals (c3StSix.localDepth + 1)) 32767 pZ).localDepth - 1)) c3St3.chunk.code.length (.jump (((CompState.mk (appendTrues (CompState.mk c3StSix.chunk c3StSix.locals (c3StSix.localDepth + 1)) 32767 pZ).chunk (appendTrues (CompState.mk c3StSix.chunk c3StSix.locals (c3StSix.localDepth + 1)) 32767 pZ).locals ((appendTrues (CompState.mk c3StSix.chunk c3StSix.locals (c3StSix.localDepth + 1)) 32767 pZ).localDepth - 1)).chunk.code.length - c3St3.chunk.code.length) % 65536))).chunk.write .ret ⟨0, 0⟩) := by
  refine compileChunk_ok 0 c3Prog [pZ] _ ?_
  rw [show c3Prog =
    [Statement.ifS .true (.expressional .true) (some c3Else)] from rfl]
  rw [emitStatements_singleton]
  exact c3_if_emit

/-- C3 counterexample: the claim that every stored jump displacement is
nonzero and lands inside the chunk fails without the chunk-size bound. The
program `if (true) true; else ... ` with 32767 copies of `true;` in the
else block compiles successfully, but the else-skipping `Jump`, whose net
displacement is 65536, is stored as `Jump 0` (at index 5) by the `as u16`
cast — a jump that targets its own instruction. -/
theorem c3_counterexample :
    (compileChunk 0 c3Prog [pZ]).isOk = Bool.true ∧
    (compileChunk 0 c3Prog [pZ]).toOption.map (fun ch => ch.code[5]?) =
      some (some (.jump 0)) := by
  constructor
  · rw [c3_compile_eq]
    rfl
  · rw [c3_compile_eq, except_ok_map_toOption]
    refine congrArg some ?_
    show ((CompState.backpatch _ _ _).chunk.write .ret ⟨0, 0⟩).code[5]? =
      some (.jump 0)
    rw [chunk_write_code, compState_backpatch_code]
    rw [c3_displacement, c3St3_len, compState_mk_chunk]
    have hlt : 5 < (appendTrues (CompState.mk c3StSix.chunk c3StSix.locals (c3StSix.localDepth + 1)) 32767 pZ).chunk.code.length := by
      rw [c3_append_len]
      norm_num
    have hlt2 : 5 < ((appendTrues (CompState.mk c3StSix.chunk c3StSix.locals (c3StSix.localDepth + 1)) 32767 pZ).chunk.code.set 5 (Instruction.jump 0)).length := by
      rw [List.length_set]
      exact hlt
    rw [List.getElem?_append_left hlt2]
    exact List.getElem?_set_self hlt

/-- `CompState::write` appends to the chunk's code vector. -/
theorem compState_write_code (st : CompState) (i : Instruction) (p : ByteRange) :
    (st.write i p).chunk.code = st.chunk.code ++ [i] := rfl

/-- `CompState::write` writes through to the chunk. -/
theorem compState_write_chunk (st : CompState) (i : Instruction) (p : ByteRange) :
    (st.write i p).chunk = st.chunk.write i p := rfl

/-- `interpret` starts from a fresh VM over the chunk's code and pool. -/
theorem initState_eq (ch : Chunk) :
    initState ch = VMState.mk ch.code ch.constants 0 [] [] Heap.new [] := rfl

/-- A `next` step consumes one unit of fuel. -/
theorem run_next (fuel : Nat) (s s1 : VMState) (h : step s = .next s1) :
    run (fuel + 1) s = run fuel s1 := by
  simp only [run, h]

/-- An `err` step ends the run with that diagnostic. -/
theorem run_err (fuel : Nat) (s s1 : VMState) (e : RuntimeErr)
    (h : step s = .err e s1) : run (fuel + 1) s = .failed e s1 := by
  simp only [run, h]

/-- A taken `JumpFalse` (falsy condition peeked, target in bounds) moves
the offset by the displacement and touches nothing else. -/
theorem step_jumpFalse_taken (s : VMState) (d : Nat) (v : Value)
    (rest : List Value)
    (hc : s.code[s.offset]? = some (.jumpFalse d))
    (hst : s.stack = rest ++ [v])
    (hfalse : v.as_bool = Bool.false)
    (hlt : s.offset + d < s.code.length) :
    step s = .next { s with offset := s.offset + d } := by
  have hge : ¬ s.offset + d ≥ s.code.length := by omega
  simp only [step, hc, hst, List.getLast?_concat, hfalse, Bool.false_eq_true,
    if_false, hge]

/-- Emitting `addChain n` from any state: each `+` appends its operand's
`True` and an `Add`. -/
theorem emitExpression_addChain (n : Nat) : ∀ (st : CompState) (p : ByteRange),
    emitExpression st (addChain n) p = .ok (appendAdds st n p) := by
  induction n with
  | zero => intro st p; rfl
  | succ n ih =>
    intro st p
    simp only [addChain, emitExpression, ih, appendAdds]

/-- `appendAdds` writes `2n + 1` instructions. -/
theorem appendAdds_len (n : Nat) : ∀ (st : CompState) (p : ByteRange),
    (appendAdds st n p).chunk.code.length = st.chunk.code.length + (2 * n + 1) := by
  induction n with
  | zero =>
    intro st p
    simp [appendAdds]
  | succ n ih =>
    intro st p
    simp only [appendAdds, write_code_length, ih]
    omega

theorem appendAdds_code_aux (m : Nat) : ∀ (st : CompState) (p : ByteRange),
    ∃ t : List Instruction,
      (appendAdds st (m + 1) p).chunk.code =
        st.chunk.code ++ (.true :: .true :: .add :: t) := by
  induction m with
  | zero =>
    intro st p
    refine ⟨[], ?_⟩
    simp [appendAdds, compState_write_code]
  | succ m ih =>
    intro st p
    obtain ⟨t, ht⟩ := ih st p
    refine ⟨t ++ [.true, .add], ?_⟩
    simp only [appendAdds] at ht ⊢
    rw [compState_write_code, compState_write_code, ht]
    simp

/-- The code written for `addChain n` (`n ≥ 1`) starts with
`True, True, Add`. -/
theorem appendAdds_code (n : Nat) (h : 1 ≤ n) : ∀ (st : CompState)
    (p : ByteRange), ∃ t : List Instruction,
      (appendAdds st n p).chunk.code =
        st.chunk.code ++ (.true :: .true :: .add :: t) := by
  obtain ⟨m, rfl⟩ : ∃ m, n = m + 1 := ⟨n - 1, by omega⟩
  exact appendAdds_code_aux m

/-- The `And` arm of `emit_expression`, read off the source with the
intermediate states abstracted: left operand, `JumpFalse` placeholder and
`Pop`, right operand, backpatch with the wrapped 16-bit displacement. -/
theorem emitExpression_and (st st1 st3 : CompState) (l r : Expression)
    (p : ByteRange)
    (h1 : emitExpression st l p = .ok st1)
    (h3 : emitExpression ((st1.write (.jumpFalse 65535) p).write .pop p) r p
            = .ok st3) :
    emitExpression st (.logic l Token.kwAnd r) p =
      .ok (st3.backpatch st1.chunk.code.length
        (.jumpFalse ((st3.chunk.code.length - st1.chunk.code.length) % 65536))) := by
  simp only [emitExpression, h1, h3]

/-- The `Expressional` arm: emit the expression, then `Pop` its value. -/
theorem emitStatement_expressional (st st1 : CompState) (e : Expression)
    (p : ByteRange) (h : emitExpression st e p = .ok st1) :
    emitStatement st (.expressional e) p = .ok (st1.write .pop p) := by
  simp only [emitStatement, h, Except.bind]

theorem c8cSt1_len : c8cSt1.chunk.code.length = 1 := by
  simp [c8cSt1, CompState.new, Chunk.new]

theorem c8cSt2_len : c8cSt2.chunk.code.length = 3 := by
  simp [c8cSt2, c8cSt1, CompState.new, Chunk.new]

/-- The region the counterexample's `JumpFalse` must skip is 65537
instructions, which the `as u16` cast stores as 1. -/
theorem c8c_disp : (((appendAdds c8cSt2 32767 pZ).chunk.code.length - c8cSt1.chunk.code.length) % 65536) = 1 := by
  rw [appendAdds_len 32767 c8cSt2 pZ, c8cSt2_len, c8cSt1_len]

theorem c8c_compile_eq :
    compileChunk 0 c8cProg [pZ] = .ok ((((appendAdds c8cSt2 32767 pZ).backpatch c8cSt1.chunk.code.length (.jumpFalse (((appendAdds c8cSt2 32767 pZ).chunk.code.length - c8cSt1.chunk.code.length) % 65536))).write .pop pZ).chunk.write .ret ⟨0, 0⟩) := by
  refine compileChunk_ok 0 c8cProg [pZ] _ ?_
  rw [show c8cProg = [Statement.expressional
    (.logic .false Token.kwAnd (addChain 32767))] from rfl]
  rw [emitStatements_singleton]
  refine emitStatement_expressional (CompState.new 0) _
    (.logic .false Token.kwAnd (addChain 32767)) pZ ?_
  exact emitExpression_and (CompState.new 0) c8cSt1 (appendAdds c8cSt2 32767 pZ)
    .false (addChain 32767) pZ rfl (emitExpression_addChain 32767 c8cSt2 pZ)

theorem c8c_code :
    ∃ t : List Instruction,
      ((((appendAdds c8cSt2 32767 pZ).backpatch c8cSt1.chunk.code.length (.jumpFalse (((appendAdds c8cSt2 32767 pZ).chunk.code.length - c8cSt1.chunk.code.length) % 65536))).write .pop pZ).chunk.write .ret ⟨0, 0⟩).code =
        Instruction.false :: Instruction.jumpFalse 1 :: Instruction.pop ::
          Instruction.true :: Instruction.true :: Instruction.add ::
            (t ++ [Instruction.pop] ++ [Instruction.ret]) := by
  obtain ⟨t, ht⟩ := appendAdds_code 32767 (by norm_num) c8cSt2 pZ
  have hpre : c8cSt2.chunk.code = [.false, .jumpFalse 65535, .pop] := rfl
  refine ⟨t, ?_⟩
  rw [chunk_write_code, compState_write_code, compState_backpatch_code,
    c8c_disp, c8cSt1_len, ht, hpre]
  rfl

/-- A `True` pushes `true` when the stack has room. -/
theorem step_push_true (s : VMState) (h : s.code[s.offset]? = some .true)
    (hcap : s.stack.length < 256) :
    step s = .next { s with
      stack := s.stack ++ [.boolean Bool.true]
      offset := s.offset + 1 } := by
  have hge : ¬ s.stack.length ≥ 256 := by omega
  simp only [step, h, VMState.push, hge, if_false]

/-- A `False` pushes `false` when the stack has room. -/
theorem step_push_false (s : VMState) (h : s.code[s.offset]? = some .false)
    (hcap : s.stack.length < 256) :
    step s = .next { s with
      stack := s.stack ++ [.boolean Bool.false]
      offset := s.offset + 1 } := by
  have hge : ¬ s.stack.length ≥ 256 := by omega
  simp only [step, h, VMState.push, hge, if_false]

/-- A `Pop` drops the topmost value. -/
theorem step_pop_last (s : VMState) (v : Value) (rest : List Value)
    (h : s.code[s.offset]? = some .pop)
    (hst : s.stack = rest ++ [v]) :
    step s = .next { s with stack := rest, offset := s.offset + 1 } := by
  simp only [step, h, hst, List.getLast?_concat, List.dropLast_concat]

/-- An `Add` on two booleans pops both and fails with E1005 (the
`_, _` arm of the `Add` match). -/
theorem step_add_booleans (s : VMState) (l r : Bool) (rest : List Value)
    (h : s.code[s.offset]? = some .add)
    (hst : s.stack = rest ++ [.boolean l] ++ [.boolean r]) :
    step s = .err .e1005ConcatOperands { s with stack := rest } := by
  simp only [step, h, hst, List.getLast?_concat, List.dropLast_concat]

/-- Running any chunk that starts `False, JumpFalse 1, Pop, True, True,
Add`: the falsy `and`-condition is peeked, the wrapped jump lands on the
`Pop` (the start of the right operand's path), the two `True`s of the
right operand are pushed and its `Add` fails with E1005 on boolean
operands. -/
theorem c8_run_wrap (tail : List Instruction) (K : List Constant) :
    (run 10 (VMState.mk (Instruction.false :: Instruction.jumpFalse 1 :: Instruction.pop :: Instruction.true :: Instruction.true :: Instruction.add :: tail) K 0 [] [] Heap.new [])).errCode =
      some .e1005ConcatOperands := by
  have e0 : step (VMState.mk (Instruction.false :: Instruction.jumpFalse 1 :: Instruction.pop :: Instruction.true :: Instruction.true :: Instruction.add :: tail) K 0 [] [] Heap.new []) =
      .next (VMState.mk (Instruction.false :: Instruction.jumpFalse 1 :: Instruction.pop :: Instruction.true :: Instruction.true :: Instruction.add :: tail) K 1 [.boolean Bool.false] [] Heap.new []) :=
    step_push_false _ (by simp) (by simp)
  have e1 : step (VMState.mk (Instruction.false :: Instruction.jumpFalse 1 :: Instruction.pop :: Instruction.true :: Instruction.true :: Instruction.add :: tail) K 1 [.boolean Bool.false] [] Heap.new []) =
      .next (VMState.mk (Instruction.false :: Instruction.jumpFalse 1 :: Instruction.pop :: Instruction.true :: Instruction.true :: Instruction.add :: tail) K 2 [.boolean Bool.false] [] Heap.new []) :=
    step_jumpFalse_taken _ 1 (.boolean Bool.false) [] (by simp) rfl rfl
      (by simp only [List.length_cons]; omega)
  have e2 : step (VMState.mk (Instruction.false :: Instruction.jumpFalse 1 :: Instruction.pop :: Instruction.true :: Instruction.true :: Instruction.add :: tail) K 2 [.boolean Bool.false] [] Heap.new []) =
      .next (VMState.mk (Instruction.false :: Instruction.jumpFalse 1 :: Instruction.pop :: Instruction.true :: Instruction.true :: Instruction.add :: tail) K 3 [] [] Heap.new []) :=
    step_pop_last _ (.boolean Bool.false) [] (by simp) rfl
  have e3 : step (VMState.mk (Instruction.false :: Instruction.jumpFalse 1 :: Instruction.pop :: Instruction.true :: Instruction.true :: Instruction.add :: tail) K 3 [] [] Heap.new []) =
      .next (VMState.mk (Instruction.false :: Instruction.jumpFalse 1 :: Instruction.pop :: Instruction.true :: Instruction.true :: Instruction.add :: tail) K 4 [.boolean Bool.true] [] Heap.new []) :=
    step_push_true _ (by simp) (by simp)
  have e4 : step (VMState.mk (Instruction.false :: Instruction.jumpFalse 1 :: Instruction.pop :: Instruction.true :: Instruction.true :: Instruction.add :: tail) K 4 [.boolean Bool.true] [] Heap.new []) =
      .next (VMState.mk (Instruction.false :: Instruction.jumpFalse 1 :: Instruction.pop :: Instruction.true :: Instruction.true :: Instruction.add :: tail) K 5
        [.boolean Bool.true, .boolean Bool.true] [] Heap.new []) :=
    step_push_true _ (by simp) (by simp)
  have e5 : step (VMState.mk (Instruction.false :: Instruction.jumpFalse 1 :: Instruction.pop :: Instruction.true :: Instruction.true :: Instruction.add :: tail) K 5
        [.boolean Bool.true, .boolean Bool.true] [] Heap.new []) =
      .err .e1005ConcatOperands (VMState.mk (Instruction.false :: Instruction.jumpFalse 1 :: Instruction.pop :: Instruction.true :: Instruction.true :: Instruction.add :: tail) K 5 [] [] Heap.new []) :=
    step_add_booleans _ Bool.true Bool.true [] (by simp) rfl
  have r : run 10 (VMState.mk (Instruction.false :: Instruction.jumpFalse 1 :: Instruction.pop :: Instruction.true :: Instruction.true :: Instruction.add :: tail) K 0 [] [] Heap.new []) =
      .failed .e1005ConcatOperands (VMState.mk (Instruction.false :: Instruction.jumpFalse 1 :: Instruction.pop :: Instruction.true :: Instruction.true :: Instruction.add :: tail) K 5 [] [] Heap.new []) :=
    (run_next 9 _ _ e0).trans ((run_next 8 _ _ e1).trans ((run_next 7 _ _ e2).trans
      ((run_next 6 _ _ e3).trans ((run_next 5 _ _ e4).trans
        (run_err 4 _ _ _ e5)))))
  rw [r]
  rfl

/-- C8 counterexample: the unqualified short-circuit claim fails. The
program `false and (true + true + ... + true);` (32768 literals) compiles
successfully, but the `JumpFalse` that should skip the right operand is
stored with displacement `65537 % 65536 = 1` by the `as u16` cast, so the
falsy left operand jumps onto the `Pop` and the right operand IS
evaluated: the run fails with E1005 when its `Add` pops two booleans,
whereas under the claim the right operand never runs and the statement
completes with no error. -/
theorem c8_counterexample :
    (compileChunk 0 c8cProg [pZ]).isOk = Bool.true ∧
    (compileChunk 0 c8cProg [pZ]).toOption.map (fun ch => ch.code[1]?) =
      some (some (.jumpFalse 1)) ∧
    (compileChunk 0 c8cProg [pZ]).toOption.map
        (fun ch => (run 10 (initState ch)).errCode) =
      some (some .e1005ConcatOperands) := by
  obtain ⟨t, hC⟩ := c8c_code
  refine ⟨?_, ?_, ?_⟩
  · rw [c8c_compile_eq]
    rfl
  · rw [c8c_compile_eq, except_ok_map_toOption]
    refine congrArg some ?_
    show (((CompState.backpatch _ _ _).write _ _).chunk.write
      .ret ⟨0, 0⟩).code[1]? = some (Instruction.jumpFalse 1)
    rw [hC]
    simp
  · rw [c8c_compile_eq, except_ok_map_toOption]
    refine congrArg some ?_
    show (run 10 (initState (((CompState.backpatch _ _ _).write _ _).chunk.write
      .ret ⟨0, 0⟩))).errCode = some .e1005ConcatOperands
    rw [initState_eq, hC]
    exact c8_run_wrap _ _

end Ruslox
